import Mathlib

set_option maxHeartbeats 1000000

/-!
Verification development for the privateApplets repository.

The Python sources are shallowly embedded as executable Lean definitions:
the flat content record (a Python dict built from CSV rows) becomes an
association list read with last-binding-wins lookup, the unbounded
`while True` scanning loops become fuel-indexed recursions whose fuel
provably dominates the number of iterations the Python loop can make,
and the text processing of the prompt parser is implemented over
`List Char` following the concrete semantics of the regular expressions
used by the source.
-/

/-- A flat content record: the association list of key/value bindings built by
the Python dict assignments in `read_csv_file` (src/py/zdog_applet_generator.py)
and `read_csv_content` (src/generate_and_deploy.py). -/
abbrev Rec := List (String × String)

/-- Lookup in a record: the value of the last binding of the key, mirroring
Python dict semantics where a repeated assignment to the same key overwrites
the earlier one. -/
def dictFind : Rec → String → Option String
  | [], _ => none
  | (f, v) :: rest, k =>
    match dictFind rest k with
    | some r => some r
    | none => if k == f then some v else none

/-- One row of `read_csv_file` (src/py/zdog_applet_generator.py lines 23-36)
and of `read_csv_content` (src/generate_and_deploy.py lines 27-39): a row with
at least two cells binds cell 0 to cell 1 (any further cells are unused); a
shorter row contributes nothing. -/
def csvStep (acc : Rec) (row : List String) : Rec :=
  match row with
  | f :: v :: _ => acc ++ [(f, v)]
  | _ => acc

/-- `read_csv_file` (src/py/zdog_applet_generator.py lines 23-36), with the
file already split into rows of cells. -/
def read_csv_file (rows : List (List String)) : Rec :=
  rows.foldl csvStep []

/-- `read_csv_content` (src/generate_and_deploy.py lines 27-39): the same row
handling as `read_csv_file`. -/
def read_csv_content (rows : List (List String)) : Rec :=
  rows.foldl csvStep []

/-- The key string built by `extract_items`
(src/py/zdog_applet_generator.py line 43). -/
def itemKey (pre : String) (i : Nat) : String := pre ++ "_" ++ toString i

/-- The `while True` loop of `extract_items`
(src/py/zdog_applet_generator.py lines 38-49), indexed by fuel.  The Python
loop terminates because every successful iteration reads a present key, the
keys of successive iterations are distinct strings, and the dict is finite,
so the loop body can succeed at most `content.length` times;
`content.length + 1` iterations therefore always reach the missing key. -/
def extractItemsGo (content : Rec) (pre : String) : Nat → Nat → List String
  | 0, _ => []
  | fuel + 1, i =>
    match dictFind content (itemKey pre i) with
    | some v => v :: extractItemsGo content pre fuel (i + 1)
    | none => []

/-- `extract_items` (src/py/zdog_applet_generator.py lines 38-49): collect
`content[prefix_1], content[prefix_2], ...` until the first absent index. -/
def extract_items (content : Rec) (pre : String) : List String :=
  extractItemsGo content pre (content.length + 1) 1

/-- Helper for `stepsRecord`: keys `pre_i, pre_(i+1), ...` for the elements of
the list. -/
def stepsRecordGo (pre : String) : Nat → List String → Rec
  | _, [] => []
  | i, s :: rest => (itemKey pre i, s) :: stepsRecordGo pre (i + 1) rest

/-- A record holding exactly the keys `pre_1 .. pre_n` for the n elements of
`l`, in order: the contiguous shape in which the Content Assembler stores a
step list. -/
def stepsRecord (pre : String) (l : List String) : Rec :=
  stepsRecordGo pre 1 l

/-- An option of a reconstructed connect question
(src/py/zdog_applet_generator.py lines 68-87).  The source tags options with
the strings "true" and "false", not booleans. -/
structure ConnectOption where
  text : String
  correct : String
deriving DecidableEq

/-- A reconstructed connect question (src/py/zdog_applet_generator.py
lines 62-66). -/
structure ConnectQuestion where
  question : String
  options : List ConnectOption
deriving DecidableEq

/-- The key `connect_question_{i}` (src/py/zdog_applet_generator.py line 58). -/
def questionKey (i : Nat) : String := "connect_question_" ++ toString i

/-- The key `connect_option_correct_{i}_1`
(src/py/zdog_applet_generator.py line 69). -/
def correctKey (i : Nat) : String :=
  "connect_option_correct_" ++ toString i ++ "_1"

/-- The key `connect_option_wrong_{i}_{j}`
(src/py/zdog_applet_generator.py line 79). -/
def wrongKey (i j : Nat) : String :=
  "connect_option_wrong_" ++ toString i ++ "_" ++ toString j

/-- The inner `while True` loop of `process_connect_questions`
(src/py/zdog_applet_generator.py lines 77-87) collecting wrong options,
indexed by fuel; as for `extractItemsGo`, `content.length + 1` iterations
dominate the Python loop. -/
def wrongOptionsGo (content : Rec) (i : Nat) : Nat → Nat → List ConnectOption
  | 0, _ => []
  | fuel + 1, j =>
    match dictFind content (wrongKey i j) with
    | some v => ⟨v, "false"⟩ :: wrongOptionsGo content i fuel (j + 1)
    | none => []

/-- The option list assembled for question index `i` by
`process_connect_questions` (src/py/zdog_applet_generator.py lines 62-87):
the correct option from `connect_option_correct_i_1` when present, followed by
the wrong options scanned from `connect_option_wrong_i_1` upward. -/
def questionOptions (content : Rec) (i : Nat) : List ConnectOption :=
  (match dictFind content (correctKey i) with
   | some v => [⟨v, "true"⟩]
   | none => []) ++ wrongOptionsGo content i (content.length + 1) 1

/-- The outer `while True` loop of `process_connect_questions`
(src/py/zdog_applet_generator.py lines 51-95), indexed by fuel: scan question
indices from `i` upward, stop at the first absent `connect_question_i`, and
keep a question only if its option list is non-empty. -/
def processConnectGo (content : Rec) : Nat → Nat → List ConnectQuestion
  | 0, _ => []
  | fuel + 1, i =>
    match dictFind content (questionKey i) with
    | none => []
    | some qt =>
      let opts := questionOptions content i
      if opts.isEmpty then processConnectGo content fuel (i + 1)
      else ⟨qt, opts⟩ :: processConnectGo content fuel (i + 1)

/-- `process_connect_questions` (src/py/zdog_applet_generator.py
lines 51-95). -/
def process_connect_questions (content : Rec) : List ConnectQuestion :=
  processConnectGo content (content.length + 1) 1

/-- An option of a connect question on the Content Assembler side
(src/prompt_to_csv.py): there the correct tag is a Python boolean, unlike the
string tags used by the applet generator. -/
structure PromptOption where
  text : String
  correct : Bool
deriving DecidableEq

/-- A connect question on the Content Assembler side (src/prompt_to_csv.py). -/
structure PromptQuestion where
  question : String
  options : List PromptOption
deriving DecidableEq

/-- The numbered hint steps of the no-credential branch of
`generate_compute_steps_with_openai` (src/prompt_to_csv.py lines 264-268):
`enumerate(hints)` emits "Step i+2: hint"; the counter argument starts at 2. -/
def hintsSteps : Nat → List String → List String
  | _, [] => []
  | n, h :: rest => ("Step " ++ toString n ++ ": " ++ h) :: hintsSteps (n + 1) rest

/-- The no-credential branch of `generate_compute_steps_with_openai`
(src/prompt_to_csv.py lines 261-268): a fixed first step followed by one step
per hint.  The branch that calls the external service is out of scope of this
embedding (external input/output). -/
def generate_compute_steps_no_key (hints : List String) : List String :=
  "Step 1: Calculate the volume of the original shape" :: hintsSteps 2 hints

/-- The no-credential branch of `generate_check_steps_with_openai`
(src/prompt_to_csv.py lines 342-350): a fixed five-element list. -/
def generate_check_steps_no_key : List String :=
  ["Check if the volume of the original shape equals the volume of the new shape",
   "Verify your calculations by substituting the values",
   "Consider if your answer makes sense in the context of the problem",
   "Calculate the surface area of both shapes to observe how it changes",
   "Try with different numbers to see if the pattern holds"]

/-- The no-credential branch of `generate_connect_questions_with_openai`
(src/prompt_to_csv.py lines 139-160): two fixed default questions. -/
def generate_connect_questions_no_key : List PromptQuestion :=
  [⟨"Which formula should you use to solve this problem?",
    [⟨"The correct formula based on the problem context", true⟩,
     ⟨"An incorrect formula that seems plausible", false⟩,
     ⟨"A formula from a different mathematical concept", false⟩,
     ⟨"No formula is needed for this problem", false⟩]⟩,
   ⟨"What is the first step in solving this problem?",
    [⟨"The correct first step for this problem", true⟩,
     ⟨"A step that should come later in the solution", false⟩,
     ⟨"An unnecessary step that doesn\x27t help solve the problem", false⟩,
     ⟨"A step that would lead to an incorrect solution", false⟩]⟩]

/-- The connect-question completion step of `create_csv_content`
(src/prompt_to_csv.py lines 491-504) in the no-credential case: when fewer
than two connect questions were provided, the generated fallback questions are
appended until two are available (all of them when none were provided). -/
def fill_connect_no_key (provided : List PromptQuestion) : List PromptQuestion :=
  if provided.length < 2 then
    if provided.isEmpty then generate_connect_questions_no_key
    else provided ++ generate_connect_questions_no_key.take (2 - provided.length)
  else provided

/-- The character class `[a-z0-9]` of the title regular expression in
`generate_card_html` (src/update_index.py line 21). -/
def regexLowerDigit (c : Char) : Bool :=
  (decide ('a' ≤ c) && decide (c ≤ 'z')) || (decide ('0' ≤ c) && decide (c ≤ '9'))

/-- The character class `[A-Z]` of the title regular expression in
`generate_card_html` (src/update_index.py line 21). -/
def regexUpper (c : Char) : Bool :=
  decide ('A' ≤ c) && decide (c ≤ 'Z')

/-- `re.sub(r'([a-z0-9])([A-Z])', r'\1 \2', name)` in `generate_card_html`
(src/update_index.py line 21): scanning left to right, a space is inserted
between a lowercase-or-digit character and an uppercase letter, and scanning
resumes after the matched pair.  Successive matches cannot overlap because an
uppercase letter is never in `[a-z0-9]`. -/
def camelSub : List Char → List Char
  | [] => []
  | [c] => [c]
  | x :: y :: rest =>
    if regexLowerDigit x && regexUpper y then x :: ' ' :: y :: camelSub rest
    else x :: camelSub (y :: rest)

/-- `title.replace('_', ' ')` in `generate_card_html`
(src/update_index.py line 23), one character at a time. -/
def underscoreSpace (c : Char) : Char := if c = '_' then ' ' else c

/-- The display title derived from a directory name by `generate_card_html`
(src/update_index.py lines 16-23) when no title is supplied: the camel-case
space insertion followed by underscore replacement. -/
def derive_title (name : String) : String :=
  ⟨(camelSub name.data).map underscoreSpace⟩

/-- The title derivation as the amended claim words it: every underscore is
replaced by a space and a single space is inserted at each transition from a
lowercase letter or a digit to an uppercase letter, considering every adjacent
character pair; nothing else changes. -/
def amendedTitleGo : List Char → List Char
  | [] => []
  | [c] => [underscoreSpace c]
  | x :: y :: rest =>
    underscoreSpace x ::
      (if regexLowerDigit x && regexUpper y then ' ' :: amendedTitleGo (y :: rest)
       else amendedTitleGo (y :: rest))

/-- See `amendedTitleGo`. -/
def amended_title (name : String) : String := ⟨amendedTitleGo name.data⟩

/-- The title derivation as the claim as stated words it: a space at each
lowercase-LETTER-to-uppercase-letter transition only (digits excluded), and
underscores replaced by spaces, with nothing else changed. -/
def claimedTitleGo : List Char → List Char
  | [] => []
  | [c] => [underscoreSpace c]
  | x :: y :: rest =>
    underscoreSpace x ::
      (if (decide ('a' ≤ x) && decide (x ≤ 'z')) && regexUpper y then
        ' ' :: claimedTitleGo (y :: rest)
       else claimedTitleGo (y :: rest))

/-- See `claimedTitleGo`. -/
def claimed_title (name : String) : String := ⟨claimedTitleGo name.data⟩

/-- A record for the C4 counterexample: question 1 with its correct option,
wrong options 1 to 3, and additionally a fourth wrong option. -/
def c4record : Rec :=
  [("connect_question_1", "Q"), ("connect_option_correct_1_1", "C"),
   ("connect_option_wrong_1_1", "W1"), ("connect_option_wrong_1_2", "W2"),
   ("connect_option_wrong_1_3", "W3"), ("connect_option_wrong_1_4", "W4")]

/-- A record for the C4 witness: question 1 with its correct option and wrong
options 1 to 3 and nothing else. -/
def c4good : Rec :=
  [("connect_question_1", "Q"), ("connect_option_correct_1_1", "C"),
   ("connect_option_wrong_1_1", "W1"), ("connect_option_wrong_1_2", "W2"),
   ("connect_option_wrong_1_3", "W3")]

/-- A record for the C9 witness: one question with a correct and a wrong
option. -/
def c9record : Rec :=
  [("connect_question_1", "Q"), ("connect_option_correct_1_1", "C"),
   ("connect_option_wrong_1_1", "W")]

/-- The Python regex class whitespace for the default (ASCII) interpretation
used throughout `parse_prompt_sections`: space, tab, newline, carriage return,
vertical tab and form feed. -/
def pyWs (c : Char) : Bool :=
  c == ' ' || c == '\t' || c == '\n' || c == '\r' || c == '\x0b' || c == '\x0c'

/-- The suffix of the text after the first occurrence of the literal pattern,
or `none` when the pattern does not occur: the `re.search` header location
step of `parse_prompt_sections` (the section patterns begin with a literal
header string). -/
def dropAfterFirst (pat : List Char) : List Char → Option (List Char)
  | [] => if pat.isEmpty then some [] else none
  | c :: rest =>
    if pat.isPrefixOf (c :: rest) then some ((c :: rest).drop pat.length)
    else dropAfterFirst pat rest

/-- The text before the first occurrence of the literal pattern, or the whole
text when the pattern does not occur. -/
def takeUntilPat (pat : List Char) : List Char → List Char
  | [] => []
  | c :: rest =>
    if pat.isPrefixOf (c :: rest) then []
    else c :: takeUntilPat pat rest

/-- Trailing-whitespace removal, half of Python `str.strip()`. -/
def dropTrailWs (l : List Char) : List Char := (l.reverse.dropWhile pyWs).reverse

/-- Python `str.strip()`: remove leading and trailing whitespace. -/
def pyStrip (l : List Char) : List Char := dropTrailWs (l.dropWhile pyWs)

/-- The capture of `re.search(HEADER + r':\s*(.*?)(?:\n|$)', content)` used for
the grade-level and concept lines of `parse_prompt_sections`
(src/prompt_to_csv.py lines 52-59): after the header, the greedy `\s*` always
commits to the maximal whitespace run (shortening it can never enable an
earlier match, since the lazy capture may be empty and the terminator `\n`
or end-of-input is always eventually reachable), and the lazy single-line
capture then extends to the first newline or the end of input. -/
def sectionLine (header : String) (content : List Char) : Option (List Char) :=
  (dropAfterFirst header.data content).map
    (fun rest => takeUntilPat ['\n'] (rest.dropWhile pyWs))

/-- The capture of `re.search(HEADER + r':\s*(.*?)(?:\n\n|\Z)', content,
re.DOTALL)` used for the block sections of `parse_prompt_sections`
(src/prompt_to_csv.py lines 62-129): after the header, the greedy `\s*`
commits to the maximal whitespace run, and the lazy dot-all capture extends
to the first blank line or the end of input. -/
def sectionBlock (header : String) (content : List Char) : Option (List Char) :=
  (dropAfterFirst header.data content).map
    (fun rest => takeUntilPat ['\n', '\n'] (rest.dropWhile pyWs))

/-- Python `text.startswith('-')`. -/
def startsDash : List Char → Bool
  | c :: _ => c == '-'
  | [] => false

/-- Python `str.split(sep)` for a literal separator of head `p0` and tail
`ps`: split at every non-overlapping occurrence, left to right, keeping empty
parts, with fuel.  Every recursive step consumes at least one character, so
`l.length + 1` steps of fuel are never exhausted.  Used with separator
newline-dash for the objectives and hints sections. -/
def splitOnPatGo (p0 : Char) (ps : List Char) : Nat → List Char → List (List Char)
  | 0, l => [l]
  | _ + 1, [] => [[]]
  | fuel + 1, c :: rest =>
    if c = p0 ∧ ps.isPrefixOf rest then
      [] :: splitOnPatGo p0 ps fuel (rest.drop ps.length)
    else
      match splitOnPatGo p0 ps fuel rest with
      | [] => [[c]]
      | p :: pss => (c :: p) :: pss

/-- See `splitOnPatGo`. -/
def splitOnPat (p0 : Char) (ps : List Char) (l : List Char) : List (List Char) :=
  splitOnPatGo p0 ps (l.length + 1) l

/-- The dash-list extraction shared by the objectives and the hints sections
of `parse_prompt_sections` (src/prompt_to_csv.py lines 62-68 and 76-82): split
the captured text on newline-dash, keep the parts with non-empty strip, strip
each, drop its first two characters and strip again; then, when the result is
non-empty and the stripped text does not start with a dash, the first item is
replaced by the stripped first line of the captured text. -/
def listItems (text : List Char) : List (List Char) :=
  let parts := splitOnPat '\n' ['-'] text
  let objs := (parts.filter (fun p => !(pyStrip p).isEmpty)).map
    (fun p => pyStrip ((pyStrip p).drop 2))
  if !objs.isEmpty && !(startsDash (pyStrip text)) then
    pyStrip (takeUntilPat ['\n'] text) :: objs.tail
  else objs

/-- A leftmost match of `r'\n\s*\d+\.\s+'` starting at the head of the text,
returning the remainder after the match (src/prompt_to_csv.py line 88).  The
greedy `\s*` commits to the maximal whitespace run (any shorter run is
followed by a whitespace character, never a digit), the greedy `\d+` to the
maximal digit run, and the final greedy `\s+` to the maximal whitespace run,
which must be non-empty. -/
def matchNumMarker (l : List Char) : Option (List Char) :=
  match l with
  | '\n' :: rest =>
    let r1 := rest.dropWhile pyWs
    let ds := r1.takeWhile Char.isDigit
    if ds.isEmpty then none
    else
      match r1.drop ds.length with
      | '.' :: r2 =>
        let ws2 := r2.takeWhile pyWs
        if ws2.isEmpty then none else some (r2.drop ws2.length)
      | _ => none
  | _ => none

/-- `re.split(r'\n\s*\d+\.\s+', text)` (src/prompt_to_csv.py line 88), with
fuel: scan left to right, cutting at every non-overlapping marker match.  A
match always consumes at least four characters, so `l.length + 1` steps of
fuel are never exhausted. -/
def splitConnectGo : Nat → List Char → List (List Char)
  | 0, l => [l]
  | _ + 1, [] => [[]]
  | fuel + 1, c :: rest =>
    match matchNumMarker (c :: rest) with
    | some rem => [] :: splitConnectGo fuel rem
    | none =>
      match splitConnectGo fuel rest with
      | [] => [[c]]
      | p :: pss => (c :: p) :: pss

/-- See `splitConnectGo`. -/
def splitConnect (l : List Char) : List (List Char) :=
  splitConnectGo (l.length + 1) l

/-- `re.match(r'\s*(\d+\.\s+)(.*)', first_block)` applied to the first
question block (src/prompt_to_csv.py lines 94-97): when the block starts with
whitespace, digits, a dot and at least one whitespace character, it is
replaced by capture group 2, which without DOTALL stops at the first newline;
otherwise the block is unchanged. -/
def stripFirstMarker (b : List Char) : List Char :=
  let r1 := b.dropWhile pyWs
  let ds := r1.takeWhile Char.isDigit
  if ds.isEmpty then b
  else
    match r1.drop ds.length with
    | '.' :: r2 =>
      let ws2 := r2.takeWhile pyWs
      if ws2.isEmpty then b
      else (r2.drop ws2.length).takeWhile (fun c => c ≠ '\n')
    | _ => b

/-- One option line of a connect-question block
(src/prompt_to_csv.py lines 110-118): the stripped line is classified by its
CORRECT: or WRONG: tag; empty and unrecognized lines are skipped. -/
def parseOptionLine (acc : List PromptOption) (l : List Char) : List PromptOption :=
  let s := pyStrip l
  if s.isEmpty then acc
  else if ("CORRECT:".data).isPrefixOf s then
    acc ++ [⟨String.mk (pyStrip (s.drop 8)), true⟩]
  else if ("WRONG:".data).isPrefixOf s then
    acc ++ [⟨String.mk (pyStrip (s.drop 6)), false⟩]
  else acc

/-- One connect-question block (src/prompt_to_csv.py lines 99-124): the first
line is the question text, the remaining lines are option lines, and the block
yields a question only when both the question text and the option list are
non-empty. -/
def parseConnectBlock (block : List Char) : Option PromptQuestion :=
  match block.splitOn '\n' with
  | [] => none
  | l0 :: restLines =>
    let qtext := pyStrip l0
    let opts := restLines.foldl parseOptionLine []
    if !qtext.isEmpty && !opts.isEmpty then some ⟨String.mk qtext, opts⟩
    else none

/-- The CONNECT QUESTIONS section body of `parse_prompt_sections`
(src/prompt_to_csv.py lines 85-124): strip the capture, split on numbered
markers, drop a leading empty block or strip a leading marker from the first
block, and parse each non-blank block. -/
def parseConnect (text : List Char) : List PromptQuestion :=
  let ctext := pyStrip text
  let blocks0 := splitConnect ctext
  let blocks :=
    match blocks0 with
    | [] => []
    | b0 :: bs =>
      if (pyStrip b0).isEmpty then bs
      else stripFirstMarker b0 :: bs
  blocks.foldl
    (fun acc b =>
      if (pyStrip b).isEmpty then acc
      else
        match parseConnectBlock b with
        | some q => acc ++ [q]
        | none => acc)
    []

/-- The normalized prompt record built by `parse_prompt_sections`
(src/prompt_to_csv.py lines 39-131). -/
structure PromptSections where
  grade_level : String
  concept : String
  objectives : List String
  question : String
  hints : List String
  connect_questions : List PromptQuestion
  notes : String
deriving DecidableEq

/-- `parse_prompt_sections` (src/prompt_to_csv.py lines 39-131).  A missing
header leaves the default empty value; single-line sections and block
sections strip their capture; objectives and hints run the dash-list
extraction on the raw capture. -/
def parse_prompt_sections (content : String) : PromptSections :=
  let cd := content.data
  ⟨(match sectionLine "GRADE LEVEL:" cd with
    | some g => String.mk (pyStrip g)
    | none => ""),
   (match sectionLine "CONCEPT:" cd with
    | some g => String.mk (pyStrip g)
    | none => ""),
   (match sectionBlock "LEARNING OBJECTIVES:" cd with
    | some t => (listItems t).map String.mk
    | none => []),
   (match sectionBlock "QUESTION/PROMPT:" cd with
    | some t => String.mk (pyStrip t)
    | none => ""),
   (match sectionBlock "HINTS FOR SOLUTION:" cd with
    | some t => (listItems t).map String.mk
    | none => []),
   (match sectionBlock "CONNECT QUESTIONS:" cd with
    | some t => parseConnect t
    | none => []),
   (match sectionBlock "ADDITIONAL NOTES:" cd with
    | some t => String.mk (pyStrip t)
    | none => "")⟩

/-- The class `\w` of `re.findall(r'\b\w+\b', ...)` in the no-credential
branch of `generate_title_with_openai` (src/prompt_to_csv.py line 430), for
ASCII input. -/
def isWordChar (c : Char) : Bool := c.isAlphanum || c == '_'

/-- State machine collecting the maximal word-character runs of the text:
`re.findall(r'\b\w+\b', text)`.  The first argument is the current run,
reversed, when inside a run. -/
def wordRunsGo : Option (List Char) → List Char → List (List Char)
  | none, [] => []
  | some run, [] => [run.reverse]
  | none, c :: rest =>
    if isWordChar c then wordRunsGo (some [c]) rest else wordRunsGo none rest
  | some run, c :: rest =>
    if isWordChar c then wordRunsGo (some (c :: run)) rest
    else run.reverse :: wordRunsGo none rest

/-- See `wordRunsGo`. -/
def wordRuns (l : List Char) : List (List Char) := wordRunsGo none l

/-- The stop list of the no-credential branch of `generate_title_with_openai`
(src/prompt_to_csv.py line 431). -/
def stopWords : List String :=
  ["with", "what", "that", "this", "from", "have", "been"]

/-- Python `str.title()` for ASCII text: a letter is uppercased when the
previous character is not a letter and lowercased otherwise.  The first
argument records whether the previous character was a letter. -/
def pyTitleGo : Bool → List Char → List Char
  | _, [] => []
  | prevAlpha, c :: rest =>
    (if c.isAlpha then (if prevAlpha then c.toLower else c.toUpper) else c) ::
      pyTitleGo c.isAlpha rest

/-- The no-credential branch of `generate_title_with_openai`
(src/prompt_to_csv.py lines 427-435): keep the words of concept-space-question
longer than three characters whose lowercase form is not a stop word; with no
such word the title is a fixed fallback, otherwise the first three words
joined by spaces, title-cased, with " Challenge" appended. -/
def generate_title_no_key (concept question : String) : String :=
  let ws := wordRuns (concept.data ++ ' ' :: question.data)
  let important := ws.filter
    (fun w => decide (3 < w.length) &&
      !(stopWords.contains (String.mk (w.map Char.toLower))))
  if important.isEmpty then "Math Visualization Challenge"
  else
    String.mk (pyTitleGo false (List.intercalate [' '] (important.take 3))) ++
      " Challenge"

/-- The compute-step placeholder of `create_csv_content`
(src/prompt_to_csv.py line 535). -/
def computePlaceholder (i : Nat) : String :=
  "Step " ++ toString i ++ ": Perform the required calculation for this step"

/-- The check-step placeholder of `create_csv_content`
(src/prompt_to_csv.py line 546). -/
def checkPlaceholder (i : Nat) : String :=
  "Check step " ++ toString i ++ ": Verify your work by examining this aspect"

/-- The `given_1..given_3` rows of `create_csv_content`
(src/prompt_to_csv.py lines 515-519), the `for i in range(1, 4)` loop
unrolled: hint i-1 when available, else empty. -/
def givenRows (hints : List String) : Rec :=
  [("given_1", (hints.get? 0).getD ""),
   ("given_2", (hints.get? 1).getD ""),
   ("given_3", (hints.get? 2).getD "")]

/-- The `tofind_1..tofind_3` rows of `create_csv_content`
(src/prompt_to_csv.py lines 522-526), the `for i in range(1, 4)` loop
unrolled: objective i-1 when available, else empty. -/
def tofindRows (objectives : List String) : Rec :=
  [("tofind_1", (objectives.get? 0).getD ""),
   ("tofind_2", (objectives.get? 1).getD ""),
   ("tofind_3", (objectives.get? 2).getD "")]

/-- The `compute_step_1..compute_step_9` rows of `create_csv_content`
(src/prompt_to_csv.py lines 529-537), the `for i in range(1, 10)` loop
unrolled: step i-1 when available, else the placeholder for indices up to 6
(the branch `if i <= 6`) and the empty string for indices 7 to 9. -/
def computeRows (cs : List String) : Rec :=
  [("compute_step_1", match cs.get? 0 with | some s => s | none => computePlaceholder 1),
   ("compute_step_2", match cs.get? 1 with | some s => s | none => computePlaceholder 2),
   ("compute_step_3", match cs.get? 2 with | some s => s | none => computePlaceholder 3),
   ("compute_step_4", match cs.get? 3 with | some s => s | none => computePlaceholder 4),
   ("compute_step_5", match cs.get? 4 with | some s => s | none => computePlaceholder 5),
   ("compute_step_6", match cs.get? 5 with | some s => s | none => computePlaceholder 6),
   ("compute_step_7", match cs.get? 6 with | some s => s | none => ""),
   ("compute_step_8", match cs.get? 7 with | some s => s | none => ""),
   ("compute_step_9", match cs.get? 8 with | some s => s | none => "")]

/-- The `check_step_1..check_step_6` rows of `create_csv_content`
(src/prompt_to_csv.py lines 540-548), the `for i in range(1, 7)` loop
unrolled: step i-1 when available, else the placeholder for indices up to 5
(the branch `if i <= 5`) and the empty string for index 6. -/
def checkRows (ks : List String) : Rec :=
  [("check_step_1", match ks.get? 0 with | some s => s | none => checkPlaceholder 1),
   ("check_step_2", match ks.get? 1 with | some s => s | none => checkPlaceholder 2),
   ("check_step_3", match ks.get? 2 with | some s => s | none => checkPlaceholder 3),
   ("check_step_4", match ks.get? 3 with | some s => s | none => checkPlaceholder 4),
   ("check_step_5", match ks.get? 4 with | some s => s | none => checkPlaceholder 5),
   ("check_step_6", match ks.get? 5 with | some s => s | none => "")]

/-- The option loop of `create_csv_content` for a provided question
(src/prompt_to_csv.py lines 556-566): the fold state is the emitted rows, the
correct-added flag and the wrong-option count.  The first correct option
becomes `connect_option_correct_i_1`; each further wrong option, up to three,
becomes the next `connect_option_wrong_i_j`. -/
def optFold (i : Nat) (st : Rec × Bool × Nat) (o : PromptOption) :
    Rec × Bool × Nat :=
  if o.correct ∧ st.2.1 = false then
    (st.1 ++ [(correctKey i, o.text)], true, st.2.2)
  else if o.correct = false ∧ st.2.2 < 3 then
    (st.1 ++ [(wrongKey i (st.2.2 + 1), o.text)], st.2.1, st.2.2 + 1)
  else st

/-- The `while wrong_count < 3` padding loop of `create_csv_content`
(src/prompt_to_csv.py lines 573-575), unrolled on the entry count `w`: the
loop emits `Incorrect option n` for `n = w+1 .. 3` and nothing when `w` is
already at least 3. -/
def fillWrong (i : Nat) : Nat → Rec
  | 0 => [(wrongKey i 1, "Incorrect option 1"), (wrongKey i 2, "Incorrect option 2"),
          (wrongKey i 3, "Incorrect option 3")]
  | 1 => [(wrongKey i 2, "Incorrect option 2"), (wrongKey i 3, "Incorrect option 3")]
  | 2 => [(wrongKey i 3, "Incorrect option 3")]
  | _ => []

/-- The option rows of one provided connect question in `create_csv_content`
(src/prompt_to_csv.py lines 556-575): the option fold, then a default correct
option when none was supplied, then wrong-option padding up to three. -/
def connectQuestionRows (i : Nat) (opts : List PromptOption) : Rec :=
  let st := opts.foldl (optFold i) ([], false, 0)
  (st.1 ++
    (if st.2.1 then [] else [(correctKey i, "The correct answer")])) ++
    fillWrong i st.2.2

/-- The rows of connect-question block `i` in `create_csv_content`
(src/prompt_to_csv.py lines 551-582): the provided question when available,
else a fixed default block. -/
def blockRows (i : Nat) (qs : List PromptQuestion) : Rec :=
  match qs.get? (i - 1) with
  | some q => (questionKey i, q.question) :: connectQuestionRows i q.options
  | none =>
    [(questionKey i,
       "Question " ++ toString i ++ ": What concept is being tested in this problem?"),
     (correctKey i, "The correct concept for this problem"),
     (wrongKey i 1, "An incorrect but related concept"),
     (wrongKey i 2, "A different mathematical concept"),
     (wrongKey i 3, "None of the above")]

/-- The connect-question rows of `create_csv_content`
(src/prompt_to_csv.py lines 551-582): exactly two blocks. -/
def connectRows (qs : List PromptQuestion) : Rec :=
  blockRows 1 qs ++ blockRows 2 qs

/-- The full row list of `create_csv_content`
(src/prompt_to_csv.py lines 506-588), as a function of the generated title,
the question text, the parsed hints and objectives, the generated compute and
check steps and the completed connect-question list. -/
def create_csv_rows (title question : String)
    (hints objectives cs ks : List String)
    (qs : List PromptQuestion) : Rec :=
  [("ZDOG APPLET CSV GENERATOR", ""),
   ("Complete the fields below to generate an applet.", ""),
   ("title", title), ("question_text", question)] ++
    givenRows hints ++ tofindRows objectives ++ computeRows cs ++
    checkRows ks ++ connectRows qs ++
    [("visualization_type", ""), ("visualization_params", "")]

/-- `create_csv_content` (src/prompt_to_csv.py lines 476-588) in the
no-credential case: every generation step takes its deterministic fallback,
and the rows are assembled from the parsed sections. -/
def create_csv_content_no_key (s : PromptSections) : Rec :=
  create_csv_rows (generate_title_no_key s.concept s.question) s.question
    s.hints s.objectives (generate_compute_steps_no_key s.hints)
    generate_check_steps_no_key (fill_connect_no_key s.connect_questions)

/-- The keys that `connectRows` can emit, all concrete. -/
def connectKeys : List String :=
  [questionKey 1, correctKey 1, wrongKey 1 1, wrongKey 1 2, wrongKey 1 3,
   questionKey 2, correctKey 2, wrongKey 2 1, wrongKey 2 2, wrongKey 2 3]

/-- A JSON value, the data the scene generator validates and fixes
(src/py/zdog_openai_generator.py).  Numbers are modelled as rationals: the
claims at issue depend only on order comparisons and `max`, on which the
floating point arithmetic of the source agrees. -/
inductive JVal where
  | jnull : JVal
  | jbool : Bool → JVal
  | jnum : Rat → JVal
  | jstr : String → JVal
  | jarr : List JVal → JVal
  | jobj : List (String × JVal) → JVal

/-- Lookup in a JSON object.  The generated objects have unique keys, so the
first binding is the binding. -/
def objGet : List (String × JVal) → String → Option JVal
  | [], _ => none
  | (f, v) :: rest, k => if k == f then some v else objGet rest k

/-- Replace the value of every binding of `k` in place, keeping order. -/
def replaceKey : List (String × JVal) → String → JVal → List (String × JVal)
  | [], _, _ => []
  | (f, w) :: rest, k, v =>
    if f == k then (f, v) :: replaceKey rest k v
    else (f, w) :: replaceKey rest k v

/-- Assignment `obj[k] = v` on a JSON object: replace the binding in place
when the key is present (Python dicts keep insertion order), else append. -/
def objSet (fields : List (String × JVal)) (k : String) (v : JVal) :
    List (String × JVal) :=
  if fields.any (fun p => p.1 == k) then replaceKey fields k v
  else fields ++ [(k, v)]

/-- The per-shape part of ZDOG_SCENE_SCHEMA
(src/py/zdog_openai_generator.py lines 35-53): a shape must be an object with
a string "type"; "id", "options" and "children" are constrained (string,
object, array) only when present. -/
def shapeOK : JVal → Bool
  | JVal.jobj fields =>
    (match objGet fields "type" with
     | some (JVal.jstr _) => true
     | _ => false) &&
    (match objGet fields "id" with
     | none => true
     | some (JVal.jstr _) => true
     | _ => false) &&
    (match objGet fields "options" with
     | none => true
     | some (JVal.jobj _) => true
     | _ => false) &&
    (match objGet fields "children" with
     | none => true
     | some (JVal.jarr _) => true
     | _ => false)
  | _ => false

/-- `jsonschema.validate(scene, ZDOG_SCENE_SCHEMA)`
(src/py/zdog_openai_generator.py line 810): the scene must be an object with
a required "shapes" array whose items all satisfy `shapeOK`. -/
def schemaCheck : JVal → Bool
  | JVal.jobj fields =>
    match objGet fields "shapes" with
    | some (JVal.jarr shapes) => shapes.all shapeOK
    | _ => false
  | _ => false

/-- Python `max(a, b)` on two numbers: the second argument when it is
strictly larger, else the first. -/
def pyMax (a b : Rat) : Rat := if a < b then b else a

/-- The size coercion on one options object
(src/py/zdog_openai_generator.py lines 816-822 and 828-832): when a numeric
"width" is below 50, width becomes `max(75, width * 1.5)`, and height and
depth become `max(75, ...)` of their current value, defaulting to the already
updated width.  `none` models the TypeError raised when the comparison or
`max` hits a non-number; the caller's catch-all except then takes the
template fallback. -/
def fixOptions (opts : List (String × JVal)) :
    Option (List (String × JVal)) :=
  match objGet opts "width" with
  | none => some opts
  | some (JVal.jnum w) =>
    if w < 50 then
      let w2 : Rat := pyMax 75 (w * (3 / 2))
      let o1 := objSet opts "width" (JVal.jnum w2)
      match (match objGet o1 "height" with
             | some (JVal.jnum x) => some x
             | some _ => none
             | none => some w2) with
      | none => none
      | some hv =>
        let o2 := objSet o1 "height" (JVal.jnum (pyMax 75 hv))
        match (match objGet o2 "depth" with
               | some (JVal.jnum x) => some x
               | some _ => none
               | none => some w2) with
        | none => none
        | some dv => some (objSet o2 "depth" (JVal.jnum (pyMax 75 dv)))
    else some opts
  | some _ => none

/-- Whether the fields are a Box shape: `shape.get("type") == "Box"`. -/
def isBoxFields (fields : List (String × JVal)) : Bool :=
  match objGet fields "type" with
  | some (JVal.jstr t) => t == "Box"
  | _ => false

/-- Substring test, Python `"width" in s` for strings. -/
def containsSub (pat s : List Char) : Bool := (dropAfterFirst pat s).isSome

/-- The `if shape.get("type") == "Box" and "options" in shape` body for one
node (src/py/zdog_openai_generator.py lines 815-822, 826-832): Box nodes with
an options object get the size coercion; a non-object options value follows
the Python semantics of the membership test (`in` on a string is a substring
test, on a list a membership test, and a TypeError otherwise, modelled as
`none`). -/
def fixBoxIfNeeded (fields : List (String × JVal)) :
    Option (List (String × JVal)) :=
  if isBoxFields fields then
    match objGet fields "options" with
    | none => some fields
    | some (JVal.jobj opts) =>
      match fixOptions opts with
      | none => none
      | some opts2 => some (objSet fields "options" (JVal.jobj opts2))
    | some (JVal.jstr s) =>
      if containsSub "width".data s.data then none else some fields
    | some (JVal.jarr l) =>
      if l.any (fun x => match x with
                         | JVal.jstr t => t == "width"
                         | _ => false) then none
      else some fields
    | some _ => none
  else some fields

/-- One direct child of a shape (src/py/zdog_openai_generator.py lines
825-832): `child.get(...)` on a non-dict raises, modelled as `none`; the
children of a child are never visited. -/
def fixChild (c : JVal) : Option JVal :=
  match c with
  | JVal.jobj f =>
    match fixBoxIfNeeded f with
    | none => none
    | some f2 => some (JVal.jobj f2)
  | _ => none

/-- Elementwise processing where any raised exception aborts the scene. -/
def mapOpt (f : α → Option β) : List α → Option (List β)
  | [] => some []
  | a :: as =>
    match f a with
    | none => none
    | some b =>
      match mapOpt f as with
      | none => none
      | some bs => some (b :: bs)

/-- The per-shape fix loop body (src/py/zdog_openai_generator.py lines
813-832): fix the shape itself, then fix each direct child in
`shape.get("children", [])`.  Iterating a non-list raises unless it is empty
(an empty string or dict iterates zero times). -/
def fixShapeTop (shape : JVal) : Option JVal :=
  match shape with
  | JVal.jobj fields =>
    match fixBoxIfNeeded fields with
    | none => none
    | some f1 =>
      match objGet f1 "children" with
      | none => some (JVal.jobj f1)
      | some (JVal.jarr kids) =>
        match mapOpt fixChild kids with
        | none => none
        | some kids2 => some (JVal.jobj (objSet f1 "children" (JVal.jarr kids2)))
      | some (JVal.jstr s) => if s.isEmpty then some (JVal.jobj f1) else none
      | some (JVal.jobj l) => if l.isEmpty then some (JVal.jobj f1) else none
      | some _ => none
  | _ => none

/-- The size-fix pass over `scene.get("shapes", [])`
(src/py/zdog_openai_generator.py lines 813-832). -/
def fixScene (scene : JVal) : Option JVal :=
  match scene with
  | JVal.jobj fields =>
    match objGet fields "shapes" with
    | none => some scene
    | some (JVal.jarr shapes) =>
      match mapOpt fixShapeTop shapes with
      | none => none
      | some shapes2 =>
        some (JVal.jobj (objSet fields "shapes" (JVal.jarr shapes2)))
    | some (JVal.jstr s) => if s.isEmpty then some scene else none
    | some (JVal.jobj l) => if l.isEmpty then some scene else none
    | some _ => none
  | _ => none

/-- The validation step of `generate_zdog_scenes_with_api` for one scene
(src/py/zdog_openai_generator.py lines 809-832): schema check, then size
coercion; `none` is the rejection path (ValidationError or TypeError), on
which the caller falls back to the template configuration. -/
def validateScene (scene : JVal) : Option JVal :=
  if schemaCheck scene then fixScene scene else none

/-- The shapes array of a scene, empty when absent or not an array. -/
def sceneShapes : JVal → List JVal
  | JVal.jobj fields =>
    match objGet fields "shapes" with
    | some (JVal.jarr l) => l
    | _ => []
  | _ => []

/-- The children array of a node, empty when absent or not an array. -/
def nodeChildren : JVal → List JVal
  | JVal.jobj fields =>
    match objGet fields "children" with
    | some (JVal.jarr l) => l
    | _ => []
  | _ => []

/-- Whether a node is a Box shape. -/
def isBoxType : JVal → Bool
  | JVal.jobj fields => isBoxFields fields
  | _ => false

/-- The numeric width in the options of a node, when present. -/
def nodeWidth : JVal → Option Rat
  | JVal.jobj fields =>
    match objGet fields "options" with
    | some (JVal.jobj opts) =>
      match objGet opts "width" with
      | some (JVal.jnum w) => some w
      | _ => none
    | _ => none
  | _ => none

/-- The C7 counterexample scene: a schema-passing scene whose only undersized
Box sits two nesting levels below a top-level shape. -/
def c7deepScene : JVal :=
  JVal.jobj [("shapes", JVal.jarr [JVal.jobj
    [("type", JVal.jstr "Group"),
     ("children", JVal.jarr [JVal.jobj
       [("type", JVal.jstr "Group"),
        ("children", JVal.jarr [JVal.jobj
          [("type", JVal.jstr "Box"),
           ("options", JVal.jobj [("width", JVal.jnum 5)])]])]])]])]

/-- The C7 witness scene: one undersized top-level Box. -/
def c7boxScene : JVal :=
  JVal.jobj [("shapes", JVal.jarr [JVal.jobj
    [("type", JVal.jstr "Box"),
     ("options", JVal.jobj [("width", JVal.jnum 10)])]])]

/-- The width the C7 witness Box receives from the size coercion. -/
def c7w2 : Rat := pyMax 75 (10 * (3 / 2))

/-- The C7 witness scene after validation: the Box scaled up. -/
def c7fixedScene : JVal :=
  JVal.jobj [("shapes", JVal.jarr [JVal.jobj
    [("type", JVal.jstr "Box"),
     ("options", JVal.jobj
       [("width", JVal.jnum c7w2),
        ("height", JVal.jnum (pyMax 75 c7w2)),
        ("depth", JVal.jnum (pyMax 75 c7w2))])]])]

theorem extractItemsGo_length_le (content : Rec) (pre : String) :
    ∀ fuel a i, a ≤ i → dictFind content (itemKey pre i) = none →
      (extractItemsGo content pre fuel a).length ≤ i - a := by
  intro fuel
  induction fuel with
  | zero => intro a i _ _; simp [extractItemsGo]
  | succ fuel ih =>
    intro a i hai hnone
    by_cases hae : a = i
    · subst hae
      simp [extractItemsGo, hnone]
    · have hlt : a < i := lt_of_le_of_ne hai hae
      cases hfind : dictFind content (itemKey pre a) with
      | none => simp [extractItemsGo, hfind]
      | some v =>
        have := ih (a + 1) i hlt hnone
        simp only [extractItemsGo, hfind, List.length_cons]
        omega

theorem extractItemsGo_get? (content : Rec) (pre : String) :
    ∀ fuel a j, j < (extractItemsGo content pre fuel a).length →
      (extractItemsGo content pre fuel a).get? j =
        dictFind content (itemKey pre (a + j)) := by
  intro fuel
  induction fuel with
  | zero => intro a j hj; simp [extractItemsGo] at hj
  | succ fuel ih =>
    intro a j hj
    cases hfind : dictFind content (itemKey pre a) with
    | none => simp [extractItemsGo, hfind] at hj
    | some v =>
      cases j with
      | zero => simp [extractItemsGo, hfind]
      | succ j =>
        simp only [extractItemsGo, hfind, List.length_cons,
          Nat.succ_lt_succ_iff] at hj
        have h2 := ih (a + 1) j hj
        simp only [extractItemsGo, hfind, List.get?]
        rw [h2, show a + 1 + j = a + (j + 1) from by omega]

theorem extract_roundtrip (l : List String) (h : l.length ≤ 9) :
    extract_items (stepsRecord "compute_step" l) "compute_step" = l := by
  match l, h with
  | [], _ => rfl
  | [a1], _ => rfl
  | [a1, a2], _ => rfl
  | [a1, a2, a3], _ => rfl
  | [a1, a2, a3, a4], _ => rfl
  | [a1, a2, a3, a4, a5], _ => rfl
  | [a1, a2, a3, a4, a5, a6], _ => rfl
  | [a1, a2, a3, a4, a5, a6, a7], _ => rfl
  | [a1, a2, a3, a4, a5, a6, a7, a8], _ => rfl
  | [a1, a2, a3, a4, a5, a6, a7, a8, a9], _ => rfl
  | a1 :: a2 :: a3 :: a4 :: a5 :: a6 :: a7 :: a8 :: a9 :: a10 :: rest, h =>
    simp only [List.length_cons] at h
    omega

/-- C1: storing at most 9 computation-step strings contiguously under
`compute_step_1 .. compute_step_n` and extracting with prefix
`compute_step` returns exactly the original list in order; and for any
record, extraction never reaches an item at or past an absent index
(the scan stops at the first gap), while every returned item is the value
stored at the corresponding contiguous index starting from 1. -/
theorem claim_C1 :
    (∀ l : List String, l.length ≤ 9 →
        extract_items (stepsRecord "compute_step" l) "compute_step" = l) ∧
    (∀ (content : Rec) (i : Nat), 1 ≤ i →
        dictFind content (itemKey "compute_step" i) = none →
        (extract_items content "compute_step").length ≤ i - 1) ∧
    (∀ (content : Rec) (j : Nat),
        j < (extract_items content "compute_step").length →
        (extract_items content "compute_step").get? j =
          dictFind content (itemKey "compute_step" (j + 1))) := by
  refine ⟨extract_roundtrip, ?_, ?_⟩
  · intro content i hi hnone
    exact extractItemsGo_length_le content "compute_step"
      (content.length + 1) 1 i hi hnone
  · intro content j hj
    have h2 := extractItemsGo_get? content "compute_step"
      (content.length + 1) 1 j hj
    rw [Nat.add_comm 1 j] at h2
    exact h2

/-- Witness for C1 at concrete inputs: a two-element list round trips, and a
record with a gap at index 2 (key `compute_step_3` present but `compute_step_2`
absent) yields at most the one item before the gap, that item being the stored
value at index 1. -/
theorem claim_C1_witness :
    extract_items (stepsRecord "compute_step" ["a", "b"]) "compute_step" =
      ["a", "b"] ∧
    (extract_items [("compute_step_1", "x"), ("compute_step_3", "z")]
        "compute_step").length ≤ 1 ∧
    (extract_items [("compute_step_1", "x"), ("compute_step_3", "z")]
        "compute_step").get? 0 =
      dictFind [("compute_step_1", "x"), ("compute_step_3", "z")]
        (itemKey "compute_step" 1) :=
  ⟨claim_C1.1 ["a", "b"] (by decide),
   claim_C1.2.1 [("compute_step_1", "x"), ("compute_step_3", "z")] 2
     (by decide) (by decide),
   claim_C1.2.2 [("compute_step_1", "x"), ("compute_step_3", "z")] 0
     (by decide)⟩

theorem wrongOptionsGo_correct (content : Rec) (i : Nat) :
    ∀ fuel j o, o ∈ wrongOptionsGo content i fuel j → o.correct = "false" := by
  intro fuel
  induction fuel with
  | zero => intro j o ho; simp [wrongOptionsGo] at ho
  | succ fuel ih =>
    intro j o ho
    cases hfind : dictFind content (wrongKey i j) with
    | none => simp [wrongOptionsGo, hfind] at ho
    | some v =>
      simp only [wrongOptionsGo, hfind, List.mem_cons] at ho
      rcases ho with rfl | ho
      · rfl
      · exact ih (j + 1) o ho

theorem processConnectGo_mem (content : Rec) :
    ∀ fuel i q, q ∈ processConnectGo content fuel i →
      q.options ≠ [] ∧ ∃ k, i ≤ k ∧
        dictFind content (questionKey k) = some q.question ∧
        q.options = questionOptions content k := by
  intro fuel
  induction fuel with
  | zero => intro i q hq; simp [processConnectGo] at hq
  | succ fuel ih =>
    intro i q hq
    cases hfind : dictFind content (questionKey i) with
    | none => simp [processConnectGo, hfind] at hq
    | some qt =>
      simp only [processConnectGo, hfind] at hq
      by_cases hempty : (questionOptions content i).isEmpty
      · rw [if_pos hempty] at hq
        obtain ⟨hne, k, hk, hfk, hok⟩ := ih (i + 1) q hq
        exact ⟨hne, k, by omega, hfk, hok⟩
      · rw [if_neg hempty] at hq
        rcases List.mem_cons.mp hq with rfl | hq
        · refine ⟨?_, i, le_refl i, hfind, rfl⟩
          simpa [List.isEmpty_iff] using hempty
        · obtain ⟨hne, k, hk, hfk, hok⟩ := ih (i + 1) q hq
          exact ⟨hne, k, by omega, hfk, hok⟩

/-- C9: every question object returned by `process_connect_questions` has at
least one option, every returned question is the reconstruction at some index
scanned from 1, and at any index whose correct-option key is present the
correct option is the head of the option list, all following options being
marked wrong. -/
theorem claim_C9 :
    ∀ content : Rec,
      (∀ q ∈ process_connect_questions content, q.options ≠ []) ∧
      (∀ q ∈ process_connect_questions content, ∃ k, 1 ≤ k ∧
          dictFind content (questionKey k) = some q.question ∧
          q.options = questionOptions content k) ∧
      (∀ i v, dictFind content (correctKey i) = some v →
          (questionOptions content i).head? = some ⟨v, "true"⟩ ∧
          ∀ o ∈ (questionOptions content i).tail, o.correct = "false") := by
  intro content
  refine ⟨?_, ?_, ?_⟩
  · intro q hq
    exact (processConnectGo_mem content (content.length + 1) 1 q hq).1
  · intro q hq
    exact (processConnectGo_mem content (content.length + 1) 1 q hq).2
  · intro i v hv
    constructor
    · simp [questionOptions, hv]
    · intro o ho
      simp only [questionOptions, hv, List.singleton_append,
        List.tail_cons] at ho
      exact wrongOptionsGo_correct content i (content.length + 1) 1 o ho

/-- Witness for C9 at a concrete record with one question, one correct and one
wrong option. -/
theorem claim_C9_witness :
    (⟨"Q", [⟨"C", "true"⟩, ⟨"W", "false"⟩]⟩ : ConnectQuestion).options ≠ [] ∧
    (questionOptions c9record 1).head? = some ⟨"C", "true"⟩ ∧
    (⟨"W", "false"⟩ : ConnectOption).correct = "false" :=
  ⟨(claim_C9 c9record).1 ⟨"Q", [⟨"C", "true"⟩, ⟨"W", "false"⟩]⟩ (by decide),
   ((claim_C9 c9record).2.2 1 "C" (by decide)).1,
   ((claim_C9 c9record).2.2 1 "C" (by decide)).2 ⟨"W", "false"⟩ (by decide)⟩

theorem dictFind_mem_keys {content : Rec} {k v : String}
    (h : dictFind content k = some v) : k ∈ content.map Prod.fst := by
  induction content with
  | nil => simp [dictFind] at h
  | cons hd tl ih =>
    obtain ⟨f, w⟩ := hd
    simp only [dictFind] at h
    cases hrest : dictFind tl k with
    | some r =>
      rw [hrest] at h
      exact List.mem_cons_of_mem _ (ih (by rw [hrest]; exact h ▸ rfl))
    | none =>
      rw [hrest] at h
      by_cases hkf : k == f
      · simp only [List.map_cons, List.mem_cons]
        exact Or.inl (by simpa using hkf)
      · simp [hkf] at h

theorem three_distinct_le_length (L : List String) (k1 k2 k3 : String)
    (h1 : k1 ∈ L) (h2 : k2 ∈ L) (h3 : k3 ∈ L)
    (h12 : k1 ≠ k2) (h13 : k1 ≠ k3) (h23 : k2 ≠ k3) : 3 ≤ L.length := by
  have hsub : ({k1, k2, k3} : Finset String) ⊆ L.toFinset := by
    intro x hx
    simp only [Finset.mem_insert, Finset.mem_singleton] at hx
    rcases hx with rfl | rfl | rfl <;> simpa [List.mem_toFinset]
  have hcard : ({k1, k2, k3} : Finset String).card = 3 := by
    rw [Finset.card_insert_of_not_mem (by simp [h12, h13]),
      Finset.card_insert_of_not_mem (by simp [h23]), Finset.card_singleton]
  calc 3 = ({k1, k2, k3} : Finset String).card := hcard.symm
    _ ≤ L.toFinset.card := Finset.card_le_card hsub
    _ ≤ L.length := L.toFinset_card_le

theorem wrongOptionsGo_cons {content : Rec} {i j : Nat} {v : String}
    (fuel : Nat) (h : dictFind content (wrongKey i j) = some v) :
    wrongOptionsGo content i (fuel + 1) j =
      ⟨v, "false"⟩ :: wrongOptionsGo content i fuel (j + 1) := by
  simp [wrongOptionsGo, h]

theorem wrongOptionsGo_nil {content : Rec} {i j : Nat}
    (fuel : Nat) (h : dictFind content (wrongKey i j) = none) :
    wrongOptionsGo content i fuel j = [] := by
  cases fuel <;> simp [wrongOptionsGo, h]

/-- C4 (amended): for every record containing `connect_question_1`,
`connect_option_correct_1_1` and `connect_option_wrong_1_1` through
`connect_option_wrong_1_3` but NOT `connect_option_wrong_1_4`, the first
reconstructed question has exactly one option marked correct and exactly its
three wrong options, in the order wrong_1, wrong_2, wrong_3.  (Without the
absence condition the wrong-option scan continues past index 3; see the
counterexample.) -/
theorem claim_C4 (content : Rec) (qt cv w1 w2 w3 : String)
    (hq : dictFind content (questionKey 1) = some qt)
    (hc : dictFind content (correctKey 1) = some cv)
    (h1 : dictFind content (wrongKey 1 1) = some w1)
    (h2 : dictFind content (wrongKey 1 2) = some w2)
    (h3 : dictFind content (wrongKey 1 3) = some w3)
    (h4 : dictFind content (wrongKey 1 4) = none) :
    ∃ q, (process_connect_questions content).head? = some q ∧
      q.question = qt ∧
      (q.options.filter (fun o => o.correct == "true")).length = 1 ∧
      (q.options.filter (fun o => o.correct == "false")).map ConnectOption.text
        = [w1, w2, w3] := by
  have hm1 := dictFind_mem_keys h1
  have hm2 := dictFind_mem_keys h2
  have hm3 := dictFind_mem_keys h3
  have hlen : 3 ≤ content.length := by
    have h := three_distinct_le_length (content.map Prod.fst)
      (wrongKey 1 1) (wrongKey 1 2) (wrongKey 1 3) hm1 hm2 hm3
      (by decide) (by decide) (by decide)
    simpa using h
  obtain ⟨m, hm⟩ : ∃ m, content.length + 1 = m + 1 + 1 + 1 + 1 :=
    ⟨content.length - 3, by omega⟩
  have hw : wrongOptionsGo content 1 (content.length + 1) 1 =
      [⟨w1, "false"⟩, ⟨w2, "false"⟩, ⟨w3, "false"⟩] := by
    rw [hm, wrongOptionsGo_cons (m + 1 + 1 + 1) h1,
      wrongOptionsGo_cons (m + 1 + 1) h2, wrongOptionsGo_cons (m + 1) h3,
      wrongOptionsGo_nil (m + 1) h4]
  have hopts : questionOptions content 1 =
      [⟨cv, "true"⟩, ⟨w1, "false"⟩, ⟨w2, "false"⟩, ⟨w3, "false"⟩] := by
    simp [questionOptions, hc, hw]
  refine ⟨⟨qt, [⟨cv, "true"⟩, ⟨w1, "false"⟩, ⟨w2, "false"⟩, ⟨w3, "false"⟩]⟩,
    ?_, rfl, rfl, rfl⟩
  unfold process_connect_questions
  simp [processConnectGo, hq, hopts]

/-- Counterexample for C4 as stated: this record contains all the keys the
claim requires, yet the reconstructed question has four options marked wrong,
because the scan continues through the also-present
`connect_option_wrong_1_4`. -/
theorem claim_C4_counterexample :
    (dictFind c4record (questionKey 1)).isSome = true ∧
    (dictFind c4record (correctKey 1)).isSome = true ∧
    (dictFind c4record (wrongKey 1 1)).isSome = true ∧
    (dictFind c4record (wrongKey 1 2)).isSome = true ∧
    (dictFind c4record (wrongKey 1 3)).isSome = true ∧
    ((process_connect_questions c4record).head?.map
        (fun q => (q.options.filter (fun o => o.correct == "false")).length))
      = some 4 := by
  decide

/-- Witness for C4 at a concrete record holding exactly the keys of the
amended claim. -/
theorem claim_C4_witness :
    ∃ q, (process_connect_questions c4good).head? = some q ∧
      q.question = "Q" ∧
      (q.options.filter (fun o => o.correct == "true")).length = 1 ∧
      (q.options.filter (fun o => o.correct == "false")).map ConnectOption.text
        = ["W1", "W2", "W3"] :=
  claim_C4 c4good "Q" "C" "W1" "W2" "W3" (by decide) (by decide) (by decide)
    (by decide) (by decide) (by decide)

theorem dictFind_append_single (d : Rec) (f v k : String) :
    dictFind (d ++ [(f, v)]) k = if k = f then some v else dictFind d k := by
  induction d with
  | nil =>
    simp only [List.nil_append, dictFind]
    by_cases hkf : k = f
    · simp [hkf]
    · simp [hkf]
  | cons hd tl ih =>
    obtain ⟨f2, v2⟩ := hd
    simp only [List.cons_append, dictFind, List.append_eq]
    rw [ih]
    by_cases hkf : k = f
    · simp [hkf]
    · simp only [if_neg hkf]

/-- C10: reading the persisted flat record ignores every row with fewer than
two cells, uses only the first two cells of longer rows, and lets the last
occurrence of a repeated key win; `read_csv_content` behaves identically to
`read_csv_file`. -/
theorem claim_C10 :
    (∀ (rows : List (List String)) (row : List String), row.length ≤ 1 →
        read_csv_file (rows ++ [row]) = read_csv_file rows) ∧
    (∀ (rows : List (List String)) (f v : String) (rest : List String)
        (k : String),
        dictFind (read_csv_file (rows ++ [f :: v :: rest])) k =
          if k = f then some v else dictFind (read_csv_file rows) k) ∧
    read_csv_content = read_csv_file := by
  refine ⟨?_, ?_, rfl⟩
  · intro rows row hrow
    unfold read_csv_file
    rw [List.foldl_append]
    match row, hrow with
    | [], _ => rfl
    | [x], _ => rfl
    | x :: y :: r, hrow =>
      simp only [List.length_cons] at hrow
      omega
  · intro rows f v rest k
    unfold read_csv_file
    rw [List.foldl_append]
    exact dictFind_append_single (List.foldl csvStep [] rows) f v k

/-- Witness for C10: a one-cell row is ignored, and a repeated key takes the
value of the later row, using only its first two cells. -/
theorem claim_C10_witness :
    read_csv_file ([["a", "1"]] ++ [["short"]]) = read_csv_file [["a", "1"]] ∧
    dictFind (read_csv_file ([["a", "1"]] ++ [["a", "2", "extra"]])) "a" =
      if "a" = "a" then some "2"
      else dictFind (read_csv_file [["a", "1"]]) "a" :=
  ⟨claim_C10.1 [["a", "1"]] ["short"] (by decide),
   claim_C10.2.1 [["a", "1"]] "a" "2" ["extra"] "a"⟩

/-- C2: with no credential supplied and none in the environment, the generated
computation-step list is non-empty and starts with the fixed default first
step, the generated check-step list has exactly five entries, and the
connect-question list placed into the record (the fallback generation when
none were provided) has exactly two entries. -/
theorem claim_C2 :
    ∀ hints : List String,
      generate_compute_steps_no_key hints ≠ [] ∧
      (generate_compute_steps_no_key hints).head? =
        some "Step 1: Calculate the volume of the original shape" ∧
      generate_check_steps_no_key.length = 5 ∧
      (fill_connect_no_key []).length = 2 := by
  intro hints
  exact ⟨by simp [generate_compute_steps_no_key], rfl, rfl, rfl⟩

theorem upper_not_lowerDigit {y : Char} (h : regexUpper y = true) :
    regexLowerDigit y = false := by
  simp only [regexUpper, Bool.and_eq_true, decide_eq_true_eq] at h
  obtain ⟨hA, hZ⟩ := h
  have hya : ¬ ('a' ≤ y) := fun hy => absurd (le_trans hy hZ) (by decide)
  have hy9 : ¬ (y ≤ '9') := fun hy => absurd (le_trans hA hy) (by decide)
  simp [regexLowerDigit, decide_eq_false hya, decide_eq_false hy9]

theorem camelSub_map_eq (n : Nat) : ∀ l : List Char, l.length ≤ n →
    (camelSub l).map underscoreSpace = amendedTitleGo l := by
  induction n with
  | zero =>
    intro l hl
    have : l = [] := List.eq_nil_of_length_eq_zero (Nat.le_zero.mp hl)
    subst this
    rfl
  | succ n ih =>
    intro l hl
    match l with
    | [] => rfl
    | [c] => rfl
    | x :: y :: rest =>
      cases htr : regexLowerDigit x && regexUpper y with
      | false =>
        have hc : camelSub (x :: y :: rest) = x :: camelSub (y :: rest) := by
          simp [camelSub, htr]
        have ha : amendedTitleGo (x :: y :: rest) =
            underscoreSpace x :: amendedTitleGo (y :: rest) := by
          simp [amendedTitleGo, htr]
        rw [hc, ha, List.map_cons]
        congr 1
        exact ih (y :: rest) (by simp only [List.length_cons] at hl ⊢; omega)
      | true =>
        have hc : camelSub (x :: y :: rest) = x :: ' ' :: y :: camelSub rest := by
          simp [camelSub, htr]
        have ha : amendedTitleGo (x :: y :: rest) =
            underscoreSpace x :: ' ' :: amendedTitleGo (y :: rest) := by
          simp [amendedTitleGo, htr]
        rw [hc, ha, List.map_cons, List.map_cons, List.map_cons,
          show underscoreSpace ' ' = ' ' from rfl]
        congr 1
        congr 1
        have hupper : regexUpper y = true := by
          simp only [Bool.and_eq_true] at htr
          exact htr.2
        cases rest with
        | nil => rfl
        | cons z rs =>
          have hyz : (regexLowerDigit y && regexUpper z) = false := by
            rw [upper_not_lowerDigit hupper, Bool.false_and]
          have ha2 : amendedTitleGo (y :: z :: rs) =
              underscoreSpace y :: amendedTitleGo (z :: rs) := by
            simp [amendedTitleGo, hyz]
          rw [ha2]
          congr 1
          exact ih (z :: rs) (by simp only [List.length_cons] at hl ⊢; omega)

/-- C8 (amended): the derived display title equals the directory name with a
single space inserted at each transition from a lowercase letter OR DIGIT to
an uppercase letter and underscores replaced by spaces, nothing else changed.
(The claim as stated omits the digit-to-uppercase case; see the
counterexample.) -/
theorem claim_C8 : ∀ name : String, derive_title name = amended_title name := by
  intro name
  exact congrArg String.mk
    (camelSub_map_eq name.data.length name.data le_rfl)

/-- Counterexample for C8 as stated: on the directory name Shape2D the code
inserts a space after the digit, while the claimed
lowercase-letter-only transformation leaves the name unchanged. -/
theorem claim_C8_counterexample :
    derive_title "Shape2D" = "Shape2 D" ∧
    claimed_title "Shape2D" = "Shape2D" ∧
    ("Shape2 D" : String) ≠ "Shape2D" := by
  decide

theorem dropWhile_append_single (p : Char → Bool) (h : Char) (hph : p h = false) :
    ∀ l : List Char, List.dropWhile p (l ++ [h]) = List.dropWhile p l ++ [h] := by
  intro l
  induction l with
  | nil => simp [List.dropWhile, hph]
  | cons c l ih =>
    cases hpc : p c with
    | true => simp [List.dropWhile, hpc, ih]
    | false => simp [List.dropWhile, hpc]

theorem pyStrip_cons {h : Char} (tl : List Char) (hws : pyWs h = false) :
    pyStrip (h :: tl) = h :: (List.dropWhile pyWs tl.reverse).reverse := by
  unfold pyStrip dropTrailWs
  rw [show List.dropWhile pyWs (h :: tl) = h :: tl by simp [List.dropWhile, hws]]
  rw [List.reverse_cons, dropWhile_append_single pyWs h hws tl.reverse]
  simp

theorem splitOnPat_head_shape (p0 : Char) (ps : List Char) (c : Char)
    (rest : List Char) (hc : c ≠ p0) :
    ∃ p pss, splitOnPat p0 ps (c :: rest) = (c :: p) :: pss := by
  show ∃ p pss,
    splitOnPatGo p0 ps ((c :: rest).length + 1) (c :: rest) = (c :: p) :: pss
  rw [splitOnPatGo]
  rw [if_neg (fun hand => hc hand.1)]
  cases hsp : splitOnPatGo p0 ps (c :: rest).length rest with
  | nil => exact ⟨[], [], rfl⟩
  | cons p pss => exact ⟨p, pss, rfl⟩

/-- C6 (amended): for every prompt whose LEARNING OBJECTIVES capture begins
with a non-whitespace character other than a dash (a first line not prefixed
by a dash), the first extracted objective is that first line with surrounding
whitespace stripped.  (The claim as stated says the first line verbatim; a
first line with trailing whitespace is stripped, see the counterexample.) -/
theorem claim_C6 (content : String) (text : List Char)
    (hsec : sectionBlock "LEARNING OBJECTIVES:" content.data = some text)
    (h : Char) (tl : List Char) (htext : text = h :: tl)
    (hws : pyWs h = false) (hdash : h ≠ '-') :
    (parse_prompt_sections content).objectives.head? =
      some (String.mk (pyStrip (takeUntilPat ['\n'] text))) := by
  subst htext
  have hobj : (parse_prompt_sections content).objectives =
      (listItems (h :: tl)).map String.mk := by
    unfold parse_prompt_sections
    simp only [hsec]
  rw [hobj]
  have hnl : h ≠ '\n' := by
    intro hh
    rw [hh] at hws
    simp [pyWs] at hws
  obtain ⟨p, pss, hsp⟩ := splitOnPat_head_shape '\n' ['-'] h tl hnl
  have hfilterhead : (!(pyStrip (h :: p)).isEmpty) = true := by
    rw [pyStrip_cons p hws]
    rfl
  have hsd : startsDash (pyStrip (h :: tl)) = false := by
    rw [pyStrip_cons tl hws]
    simp [startsDash, hdash]
  simp only [listItems, hsp, List.filter_cons, hfilterhead, if_true,
    List.map_cons, hsd, List.isEmpty_cons, Bool.not_false, Bool.and_true,
    Bool.true_and, if_pos]
  rfl

/-- Witness for C6 at a concrete prompt whose objectives section starts with a
dash-less line without trailing whitespace. -/
theorem claim_C6_witness :
    (parse_prompt_sections
        "LEARNING OBJECTIVES:\nUnderstand volume\n- Second\n\n").objectives.head?
      = some "Understand volume" := by
  have h := claim_C6 "LEARNING OBJECTIVES:\nUnderstand volume\n- Second\n\n"
    ('U' :: "nderstand volume\n- Second".data) (by decide)
    'U' "nderstand volume\n- Second".data rfl (by decide) (by decide)
  exact h.trans (by decide)

/-- Counterexample for C6 as stated: with section capture
`Foo \n- Bar` (first line `Foo ` with a trailing space), the first extracted
objective is the STRIPPED first line `Foo`, not the verbatim first line. -/
theorem claim_C6_counterexample :
    (parse_prompt_sections
        "LEARNING OBJECTIVES:\nFoo \n- Bar\n\n").objectives.head? = some "Foo" ∧
    (sectionBlock "LEARNING OBJECTIVES:"
        "LEARNING OBJECTIVES:\nFoo \n- Bar\n\n".data).map
      (fun t => takeUntilPat ['\n'] t) = some "Foo ".data ∧
    ("Foo" : String) ≠ "Foo " := by
  refine ⟨by decide, by decide, by decide⟩

/-- C5: parsing the example prompt with no external credential and assembling
the record yields `question_text = "What is 2+2?"`,
`given_1 = "Add the numbers"`, and a non-empty `compute_step_1`. -/
theorem claim_C5 :
    dictFind (create_csv_content_no_key (parse_prompt_sections
        "QUESTION/PROMPT:\nWhat is 2+2?\n\nHINTS FOR SOLUTION:\n- Add the numbers\n\n"))
      "question_text" = some "What is 2+2?" ∧
    dictFind (create_csv_content_no_key (parse_prompt_sections
        "QUESTION/PROMPT:\nWhat is 2+2?\n\nHINTS FOR SOLUTION:\n- Add the numbers\n\n"))
      "given_1" = some "Add the numbers" ∧
    ∃ s, dictFind (create_csv_content_no_key (parse_prompt_sections
        "QUESTION/PROMPT:\nWhat is 2+2?\n\nHINTS FOR SOLUTION:\n- Add the numbers\n\n"))
      "compute_step_1" = some s ∧ s ≠ "" := by
  refine ⟨by decide, by decide,
    "Step 1: Calculate the volume of the original shape", by decide, by decide⟩

theorem dictFind_append (d1 d2 : Rec) (k : String) :
    dictFind (d1 ++ d2) k =
      match dictFind d2 k with
      | some v => some v
      | none => dictFind d1 k := by
  induction d1 with
  | nil =>
    simp only [List.nil_append]
    cases dictFind d2 k <;> rfl
  | cons hd tl ih =>
    obtain ⟨f, v⟩ := hd
    show (match dictFind (tl ++ d2) k with
          | some r => some r
          | none => if k == f then some v else none) = _
    rw [ih]
    cases dictFind d2 k <;> rfl

theorem dictFind_eq_none (d : Rec) (k : String)
    (h : ∀ p ∈ d, p.1 ≠ k) : dictFind d k = none := by
  induction d with
  | nil => rfl
  | cons hd tl ih =>
    obtain ⟨f, v⟩ := hd
    have hf : (k == f) = false :=
      beq_eq_false_iff_ne.mpr
        (fun he => (h (f, v) (List.mem_cons_self _ _)) he.symm)
    show (match dictFind tl k with
          | some r => some r
          | none => if k == f then some v else none) = none
    rw [ih (fun p hp => h p (List.mem_cons_of_mem _ hp)), hf]
    rfl

theorem vizRows_find_none (t : String)
    (h1 : t ≠ "visualization_type") (h2 : t ≠ "visualization_params") :
    dictFind [("visualization_type", ""), ("visualization_params", "")] t
      = none := by
  have hb1 : (t == "visualization_type") = false := beq_eq_false_iff_ne.mpr h1
  have hb2 : (t == "visualization_params") = false := beq_eq_false_iff_ne.mpr h2
  simp [dictFind, hb1, hb2]

theorem checkRows_keys (ks : List String) :
    ∀ p ∈ checkRows ks,
      p.1 ∈ ["check_step_1", "check_step_2", "check_step_3", "check_step_4",
             "check_step_5", "check_step_6"] := by
  intro p hp
  simp only [checkRows, List.mem_cons, List.not_mem_nil, or_false] at hp
  rcases hp with rfl | rfl | rfl | rfl | rfl | rfl <;> simp

theorem checkRows_find_none (ks : List String) (t : String)
    (ht : ∀ s ∈ ["check_step_1", "check_step_2", "check_step_3",
                 "check_step_4", "check_step_5", "check_step_6"], s ≠ t) :
    dictFind (checkRows ks) t = none :=
  dictFind_eq_none _ _ (fun p hp => ht _ (checkRows_keys ks p hp))

theorem fillWrong_keys (i : Nat) (w : Nat) :
    ∀ p ∈ fillWrong i w,
      ∃ n, 1 ≤ n ∧ n ≤ 3 ∧ p.1 = wrongKey i n := by
  intro p hp
  match w with
  | 0 =>
    simp only [fillWrong, List.mem_cons, List.not_mem_nil, or_false] at hp
    rcases hp with rfl | rfl | rfl
    · exact ⟨1, by omega, by omega, rfl⟩
    · exact ⟨2, by omega, by omega, rfl⟩
    · exact ⟨3, by omega, by omega, rfl⟩
  | 1 =>
    simp only [fillWrong, List.mem_cons, List.not_mem_nil, or_false] at hp
    rcases hp with rfl | rfl
    · exact ⟨2, by omega, by omega, rfl⟩
    · exact ⟨3, by omega, by omega, rfl⟩
  | 2 =>
    simp only [fillWrong, List.mem_cons, List.not_mem_nil, or_false] at hp
    rcases hp with rfl
    exact ⟨3, by omega, by omega, rfl⟩
  | n + 3 =>
    simp only [fillWrong] at hp
    simp at hp

theorem optFold_keys (i : Nat) :
    ∀ (opts : List PromptOption) (st : Rec × Bool × Nat),
      (∀ p ∈ st.1,
        p.1 = correctKey i ∨ ∃ n, 1 ≤ n ∧ n ≤ 3 ∧ p.1 = wrongKey i n) →
      ∀ p ∈ (opts.foldl (optFold i) st).1,
        p.1 = correctKey i ∨ ∃ n, 1 ≤ n ∧ n ≤ 3 ∧ p.1 = wrongKey i n := by
  intro opts
  induction opts with
  | nil => intro st hst p hp; exact hst p hp
  | cons o rest ih =>
    intro st hst p hp
    rw [List.foldl_cons] at hp
    refine ih (optFold i st o) ?_ p hp
    intro q hq
    unfold optFold at hq
    split at hq
    · rcases List.mem_append.mp hq with hq | hq
      · exact hst q hq
      · simp only [List.mem_cons, List.not_mem_nil, or_false] at hq
        subst hq
        exact Or.inl rfl
    · split at hq
      · rcases List.mem_append.mp hq with hq | hq
        · exact hst q hq
        · simp only [List.mem_cons, List.not_mem_nil, or_false] at hq
          subst hq
          rename_i hcond
          exact Or.inr ⟨st.2.2 + 1, by omega, by omega, rfl⟩
      · exact hst q hq

theorem connectQuestionRows_keys (i : Nat) (opts : List PromptOption) :
    ∀ p ∈ connectQuestionRows i opts,
      p.1 = correctKey i ∨ ∃ n, 1 ≤ n ∧ n ≤ 3 ∧ p.1 = wrongKey i n := by
  intro p hp
  unfold connectQuestionRows at hp
  rcases List.mem_append.mp hp with hp | hp
  · rcases List.mem_append.mp hp with hp | hp
    · exact optFold_keys i opts ([], false, 0) (by simp) p hp
    · split at hp
      · simp at hp
      · simp only [List.mem_cons, List.not_mem_nil, or_false] at hp
        subst hp
        exact Or.inl rfl
  · exact Or.inr (fillWrong_keys i _ p hp)

theorem blockRows_keys (i : Nat) (qs : List PromptQuestion) :
    ∀ p ∈ blockRows i qs,
      p.1 = questionKey i ∨ p.1 = correctKey i ∨
        ∃ n, 1 ≤ n ∧ n ≤ 3 ∧ p.1 = wrongKey i n := by
  intro p hp
  unfold blockRows at hp
  split at hp
  · rcases List.mem_cons.mp hp with rfl | hp
    · exact Or.inl rfl
    · rcases connectQuestionRows_keys i _ p hp with h | h
      · exact Or.inr (Or.inl h)
      · exact Or.inr (Or.inr h)
  · simp only [List.mem_cons, List.not_mem_nil, or_false] at hp
    rcases hp with rfl | rfl | rfl | rfl | rfl
    · exact Or.inl rfl
    · exact Or.inr (Or.inl rfl)
    · exact Or.inr (Or.inr ⟨1, by omega, by omega, rfl⟩)
    · exact Or.inr (Or.inr ⟨2, by omega, by omega, rfl⟩)
    · exact Or.inr (Or.inr ⟨3, by omega, by omega, rfl⟩)

theorem connectRows_find_none (qs : List PromptQuestion) (t : String)
    (ht : ∀ s ∈ connectKeys, s ≠ t) :
    dictFind (connectRows qs) t = none := by
  refine dictFind_eq_none _ _ (fun p hp => ?_)
  have hk : p.1 ∈ connectKeys := by
    rcases List.mem_append.mp hp with hp | hp
    · rcases blockRows_keys 1 qs p hp with h | h | ⟨n, hn1, hn3, h⟩
      · rw [h]; simp [connectKeys]
      · rw [h]; simp [connectKeys]
      · interval_cases n <;> (rw [h]; simp [connectKeys])
    · rcases blockRows_keys 2 qs p hp with h | h | ⟨n, hn1, hn3, h⟩
      · rw [h]; simp [connectKeys]
      · rw [h]; simp [connectKeys]
      · interval_cases n <;> (rw [h]; simp [connectKeys])
  exact ht _ hk

/-- C3: in the emitted record, the keys `compute_step_1..compute_step_9` are
all present with the step at that index when available, the fixed placeholder
when the index exceeds the available steps but is at most 6, and the empty
string for indices 7 to 9; the keys `check_step_1..check_step_6` are all
present with placeholder padding only up to index 5 and the empty string at
index 6. -/
theorem claim_C3 (title question : String)
    (hints objectives cs ks : List String) (qs : List PromptQuestion)
    (i : Nat) :
    (1 ≤ i → i ≤ 9 →
      dictFind (create_csv_rows title question hints objectives cs ks qs)
          ("compute_step_" ++ toString i) =
        some (match cs.get? (i - 1) with
              | some s => s
              | none => if i ≤ 6 then computePlaceholder i else "")) ∧
    (1 ≤ i → i ≤ 6 →
      dictFind (create_csv_rows title question hints objectives cs ks qs)
          ("check_step_" ++ toString i) =
        some (match ks.get? (i - 1) with
              | some s => s
              | none => if i ≤ 5 then checkPlaceholder i else "")) := by
  constructor
  · intro h1 h9
    interval_cases i <;>
    · simp only [create_csv_rows]
      rw [dictFind_append, vizRows_find_none _ (by decide) (by decide),
        dictFind_append, connectRows_find_none qs _ (by decide),
        dictFind_append, checkRows_find_none ks _ (by decide),
        dictFind_append]
      rfl
  · intro h1 h6
    interval_cases i <;>
    · simp only [create_csv_rows]
      rw [dictFind_append, vizRows_find_none _ (by decide) (by decide),
        dictFind_append, connectRows_find_none qs _ (by decide),
        dictFind_append]
      rfl

/-- Witness for C3 at a concrete record with one compute step and no check
steps: `compute_step_7` is the empty string (index past the available steps
and above 6) and `check_step_6` is the empty string. -/
theorem claim_C3_witness :
    dictFind (create_csv_rows "t" "q" [] [] ["a"] [] [])
        ("compute_step_" ++ toString 7) =
      some (match ["a"].get? (7 - 1) with
            | some s => s
            | none => if 7 ≤ 6 then computePlaceholder 7 else "") ∧
    dictFind (create_csv_rows "t" "q" [] [] ["a"] [] [])
        ("check_step_" ++ toString 6) =
      some (match ([] : List String).get? (6 - 1) with
            | some s => s
            | none => if 6 ≤ 5 then checkPlaceholder 6 else "") :=
  ⟨(claim_C3 "t" "q" [] [] ["a"] [] [] 7).1 (by decide) (by decide),
   (claim_C3 "t" "q" [] [] ["a"] [] [] 6).2 (by decide) (by decide)⟩

theorem objGet_replaceKey_self (k : String) (v : JVal) :
    ∀ f : List (String × JVal),
      objGet (replaceKey f k v) k =
        match objGet f k with
        | some _ => some v
        | none => none := by
  intro f
  induction f with
  | nil => rfl
  | cons hd tl ih =>
    obtain ⟨f1, v1⟩ := hd
    by_cases h1 : f1 = k
    · subst h1
      simp [replaceKey, objGet]
    · have hb : (f1 == k) = false := beq_eq_false_iff_ne.mpr h1
      have hb2 : (k == f1) = false := beq_eq_false_iff_ne.mpr (Ne.symm h1)
      simp [replaceKey, objGet, hb, hb2, ih]

theorem objGet_replaceKey_ne (k k' : String) (v : JVal) (h : k' ≠ k) :
    ∀ f : List (String × JVal),
      objGet (replaceKey f k v) k' = objGet f k' := by
  intro f
  induction f with
  | nil => rfl
  | cons hd tl ih =>
    obtain ⟨f1, v1⟩ := hd
    by_cases h1 : f1 = k
    · subst h1
      have hb2 : (k' == f1) = false := beq_eq_false_iff_ne.mpr h
      simp [replaceKey, objGet, hb2, ih]
    · have hb : (f1 == k) = false := beq_eq_false_iff_ne.mpr h1
      by_cases h2 : k' = f1
      · subst h2
        simp [replaceKey, objGet, hb]
      · have hb2 : (k' == f1) = false := beq_eq_false_iff_ne.mpr h2
        simp [replaceKey, objGet, hb, hb2, ih]

theorem objGet_append_absent (k : String) (v : JVal) :
    ∀ f : List (String × JVal), (∀ p ∈ f, p.1 ≠ k) →
      objGet (f ++ [(k, v)]) k = some v := by
  intro f
  induction f with
  | nil => simp [objGet]
  | cons hd tl ih =>
    intro h
    obtain ⟨f1, v1⟩ := hd
    have hb : (k == f1) = false :=
      beq_eq_false_iff_ne.mpr
        (fun he => (h (f1, v1) (List.mem_cons_self _ _)) he.symm)
    simp only [List.cons_append, objGet, hb, Bool.false_eq_true, if_false]
    exact ih (fun p hp => h p (List.mem_cons_of_mem _ hp))

theorem objGet_append_other (k k' : String) (v : JVal) (h : k' ≠ k) :
    ∀ f : List (String × JVal),
      objGet (f ++ [(k, v)]) k' = objGet f k' := by
  intro f
  induction f with
  | nil =>
    have hb : (k' == k) = false := beq_eq_false_iff_ne.mpr h
    simp [objGet, hb]
  | cons hd tl ih =>
    obtain ⟨f1, v1⟩ := hd
    by_cases h2 : k' = f1
    · subst h2
      simp [objGet]
    · have hb2 : (k' == f1) = false := beq_eq_false_iff_ne.mpr h2
      simp [objGet, hb2, ih]

theorem objGet_ne_none (k : String) :
    ∀ (f : List (String × JVal)) (p : String × JVal), p ∈ f → p.1 = k →
      objGet f k ≠ none := by
  intro f
  induction f with
  | nil => intro p hp; simp at hp
  | cons hd tl ih =>
    intro p hp hpk
    obtain ⟨f1, v1⟩ := hd
    by_cases h1 : k = f1
    · simp [objGet, beq_eq_false_iff_ne, h1]
    · have hb : (k == f1) = false := beq_eq_false_iff_ne.mpr h1
      simp only [objGet, hb, Bool.false_eq_true, if_false]
      rcases List.mem_cons.mp hp with rfl | hp
      · exact absurd hpk.symm h1
      · exact ih p hp hpk

theorem objGet_objSet_self (f : List (String × JVal)) (k : String) (v : JVal) :
    objGet (objSet f k v) k = some v := by
  unfold objSet
  by_cases hany : f.any (fun p => p.1 == k) = true
  · rw [if_pos hany, objGet_replaceKey_self]
    obtain ⟨p, hp, hpk⟩ := List.any_eq_true.mp hany
    cases ho : objGet f k with
    | some u => rfl
    | none =>
      exact absurd ho (objGet_ne_none k f p hp (by simpa using hpk))
  · rw [if_neg hany]
    refine objGet_append_absent k v f (fun p hp he => hany ?_)
    exact List.any_eq_true.mpr ⟨p, hp, by simp [he]⟩

theorem objGet_objSet_ne (f : List (String × JVal)) (k : String) (v : JVal)
    (k' : String) (h : k' ≠ k) :
    objGet (objSet f k v) k' = objGet f k' := by
  unfold objSet
  by_cases hany : f.any (fun p => p.1 == k) = true
  · rw [if_pos hany, objGet_replaceKey_ne k k' v h]
  · rw [if_neg hany, objGet_append_other k k' v h]

theorem mapOpt_mem {α β : Type} (f : α → Option β) :
    ∀ (l : List α) (l2 : List β), mapOpt f l = some l2 →
      ∀ b ∈ l2, ∃ a ∈ l, f a = some b := by
  intro l
  induction l with
  | nil =>
    intro l2 h b hb
    simp only [mapOpt] at h
    injection h with h
    subst h
    simp at hb
  | cons a as ih =>
    intro l2 h b hb
    simp only [mapOpt] at h
    cases hfa : f a with
    | none => rw [hfa] at h; cases h
    | some b0 =>
      rw [hfa] at h
      cases hrec : mapOpt f as with
      | none => rw [hrec] at h; cases h
      | some bs =>
        rw [hrec] at h
        injection h with h
        subst h
        rcases List.mem_cons.mp hb with rfl | hb
        · exact ⟨a, List.mem_cons_self _ _, hfa⟩
        · obtain ⟨a2, ha2, hfa2⟩ := ih bs hrec b hb
          exact ⟨a2, List.mem_cons_of_mem _ ha2, hfa2⟩

theorem le_pyMax (a b : Rat) : a ≤ pyMax a b := by
  unfold pyMax
  by_cases h : a < b
  · rw [if_pos h]
    exact le_of_lt h
  · rw [if_neg h]

theorem fifty_le_pyMax (b : Rat) : (50 : Rat) ≤ pyMax 75 b :=
  le_trans (by norm_num) (le_pyMax 75 b)

theorem fixOptions_width_ge (opts opts2 : List (String × JVal))
    (hfix : fixOptions opts = some opts2) :
    ∀ w2, objGet opts2 "width" = some (JVal.jnum w2) → 50 ≤ w2 := by
  intro w2 hw2
  unfold fixOptions at hfix
  cases how : objGet opts "width" with
  | none =>
    simp only [how] at hfix
    injection hfix with hfix
    subst hfix
    rw [how] at hw2
    cases hw2
  | some jv =>
    cases jv with
    | jnum w =>
      simp only [how] at hfix
      by_cases hlt : w < 50
      · rw [if_pos hlt] at hfix
        split at hfix
        · cases hfix
        · split at hfix
          · cases hfix
          · injection hfix with hfix
            subst hfix
            rw [objGet_objSet_ne _ "depth" _ "width" (by decide),
              objGet_objSet_ne _ "height" _ "width" (by decide),
              objGet_objSet_self] at hw2
            injection hw2 with hw2
            injection hw2 with hw2
            subst hw2
            exact fifty_le_pyMax _
      · rw [if_neg hlt] at hfix
        injection hfix with hfix
        subst hfix
        rw [how] at hw2
        injection hw2 with hw2
        injection hw2 with hw2
        subst hw2
        exact le_of_not_lt hlt
    | jnull => simp [how] at hfix
    | jbool b => simp [how] at hfix
    | jstr s => simp [how] at hfix
    | jarr l => simp [how] at hfix
    | jobj o => simp [how] at hfix

theorem fixBox_width (fields f2 : List (String × JVal))
    (h : fixBoxIfNeeded fields = some f2) :
    isBoxType (JVal.jobj f2) = true →
      ∀ w, nodeWidth (JVal.jobj f2) = some w → 50 ≤ w := by
  intro hbox w hw
  unfold fixBoxIfNeeded at h
  by_cases hib : isBoxFields fields = true
  · rw [if_pos hib] at h
    cases hopt : objGet fields "options" with
    | none =>
      simp only [hopt] at h
      injection h with h
      subst h
      simp [nodeWidth, hopt] at hw
    | some jv =>
      cases jv with
      | jobj opts =>
        simp only [hopt] at h
        cases hfo : fixOptions opts with
        | none => simp only [hfo] at h; cases h
        | some opts2 =>
          simp only [hfo] at h
          injection h with h
          subst h
          simp only [nodeWidth, objGet_objSet_self] at hw
          cases hww : objGet opts2 "width" with
          | none => rw [hww] at hw; cases hw
          | some jw =>
            rw [hww] at hw
            cases jw with
            | jnum q =>
              injection hw with hw
              subst hw
              exact fixOptions_width_ge opts opts2 hfo q hww
            | jnull => cases hw
            | jbool b => cases hw
            | jstr s => cases hw
            | jarr l => cases hw
            | jobj o => cases hw
      | jstr s =>
        simp only [hopt] at h
        split at h
        · cases h
        · injection h with h
          subst h
          simp [nodeWidth, hopt] at hw
      | jarr l =>
        simp only [hopt] at h
        split at h
        · cases h
        · injection h with h
          subst h
          simp [nodeWidth, hopt] at hw
      | jnull => simp [hopt] at h
      | jbool b => simp [hopt] at h
      | jnum q => simp [hopt] at h
  · rw [if_neg hib] at h
    injection h with h
    subst h
    exact absurd (by simpa [isBoxType] using hbox) hib

theorem isBoxType_objSet (f : List (String × JVal)) (k : String) (v : JVal)
    (hk : ("type" : String) ≠ k) :
    isBoxType (JVal.jobj (objSet f k v)) = isBoxType (JVal.jobj f) := by
  simp only [isBoxType, isBoxFields, objGet_objSet_ne f k v "type" hk]

theorem nodeWidth_objSet (f : List (String × JVal)) (k : String) (v : JVal)
    (hk : ("options" : String) ≠ k) :
    nodeWidth (JVal.jobj (objSet f k v)) = nodeWidth (JVal.jobj f) := by
  simp only [nodeWidth, objGet_objSet_ne f k v "options" hk]

theorem nodeChildren_objSet_self (f : List (String × JVal)) (kids : List JVal) :
    nodeChildren (JVal.jobj (objSet f "children" (JVal.jarr kids))) = kids := by
  simp only [nodeChildren, objGet_objSet_self]

theorem sceneShapes_objSet_self (f : List (String × JVal)) (shapes : List JVal) :
    sceneShapes (JVal.jobj (objSet f "shapes" (JVal.jarr shapes))) = shapes := by
  simp only [sceneShapes, objGet_objSet_self]

theorem fixChild_floors (a c : JVal) (h : fixChild a = some c) :
    isBoxType c = true → ∀ w, nodeWidth c = some w → 50 ≤ w := by
  cases a with
  | jobj f =>
    unfold fixChild at h
    cases hfb : fixBoxIfNeeded f with
    | none => simp only [hfb] at h; cases h
    | some f2 =>
      simp only [hfb] at h
      injection h with h
      subst h
      exact fixBox_width f f2 hfb
  | jnull => cases h
  | jbool b => cases h
  | jnum q => cases h
  | jstr s => cases h
  | jarr l => cases h

theorem fixShapeTop_floors (shape shape2 : JVal)
    (h : fixShapeTop shape = some shape2) :
    (isBoxType shape2 = true → ∀ w, nodeWidth shape2 = some w → 50 ≤ w) ∧
    (∀ c ∈ nodeChildren shape2,
      isBoxType c = true → ∀ w, nodeWidth c = some w → 50 ≤ w) := by
  cases shape with
  | jobj fields =>
    unfold fixShapeTop at h
    cases hfb : fixBoxIfNeeded fields with
    | none => simp only [hfb] at h; cases h
    | some f1 =>
      simp only [hfb] at h
      cases hch : objGet f1 "children" with
      | none =>
        simp only [hch] at h
        injection h with h
        subst h
        refine ⟨fixBox_width fields f1 hfb, ?_⟩
        intro c hc
        simp [nodeChildren, hch] at hc
      | some jv =>
        cases jv with
        | jarr kids =>
          simp only [hch] at h
          cases hmk : mapOpt fixChild kids with
          | none => simp only [hmk] at h; cases h
          | some kids2 =>
            simp only [hmk] at h
            injection h with h
            subst h
            constructor
            · intro hbox w hw
              rw [isBoxType_objSet f1 "children" _ (by decide)] at hbox
              rw [nodeWidth_objSet f1 "children" _ (by decide)] at hw
              exact fixBox_width fields f1 hfb hbox w hw
            · intro c hc
              rw [nodeChildren_objSet_self] at hc
              obtain ⟨a, _, hfc⟩ := mapOpt_mem fixChild kids kids2 hmk c hc
              exact fixChild_floors a c hfc
        | jstr s =>
          simp only [hch] at h
          split at h
          · injection h with h
            subst h
            refine ⟨fixBox_width fields f1 hfb, ?_⟩
            intro c hc
            simp [nodeChildren, hch] at hc
          · cases h
        | jobj l =>
          simp only [hch] at h
          split at h
          · injection h with h
            subst h
            refine ⟨fixBox_width fields f1 hfb, ?_⟩
            intro c hc
            simp [nodeChildren, hch] at hc
          · cases h
        | jnull => simp [hch] at h
        | jbool b => simp [hch] at h
        | jnum q => simp [hch] at h
  | jnull => cases h
  | jbool b => cases h
  | jnum q => cases h
  | jstr s => cases h
  | jarr l => cases h

/-- C7 (amended): the claim's quantifier over every box-like element holds
only for TOP-LEVEL elements and DIRECT CHILDREN of top-level elements; boxes
nested deeper are not rescaled (see the counterexample).  For those two
levels the claim does hold: in every configuration the validation step
returns, each such Box with a width has width at least the threshold 50
(first conjunct); the size coercion raises an undersized width to at least
the threshold (second conjunct); and the validation step never fails on
account of an undersized box: on numeric size fields the coercion always
returns a configuration (third conjunct). -/
theorem claim_C7 :
    (∀ scene out, validateScene scene = some out →
      ∀ s ∈ sceneShapes out,
        (isBoxType s = true → ∀ w, nodeWidth s = some w → 50 ≤ w) ∧
        (∀ c ∈ nodeChildren s,
          isBoxType c = true → ∀ w, nodeWidth c = some w → 50 ≤ w)) ∧
    (∀ (opts opts2 : List (String × JVal)) (w : Rat),
      fixOptions opts = some opts2 →
      objGet opts "width" = some (JVal.jnum w) → w < 50 →
      ∃ w2, objGet opts2 "width" = some (JVal.jnum w2) ∧ 50 ≤ w2) ∧
    (∀ (opts : List (String × JVal)) (w : Rat),
      objGet opts "width" = some (JVal.jnum w) →
      (∀ x, objGet opts "height" = some x → ∃ q, x = JVal.jnum q) →
      (∀ x, objGet opts "depth" = some x → ∃ q, x = JVal.jnum q) →
      (fixOptions opts).isSome = true) := by
  refine ⟨?_, ?_, ?_⟩
  · intro scene out hval s hs
    unfold validateScene at hval
    by_cases hsc : schemaCheck scene = true
    · rw [if_pos hsc] at hval
      cases scene with
      | jobj fields =>
        unfold fixScene at hval
        cases hsh : objGet fields "shapes" with
        | none =>
          simp only [hsh] at hval
          injection hval with hval
          subst hval
          simp [sceneShapes, hsh] at hs
        | some jv =>
          cases jv with
          | jarr shapes =>
            simp only [hsh] at hval
            cases hmk : mapOpt fixShapeTop shapes with
            | none => simp only [hmk] at hval; cases hval
            | some shapes2 =>
              simp only [hmk] at hval
              injection hval with hval
              subst hval
              rw [sceneShapes_objSet_self] at hs
              obtain ⟨a, _, hfa⟩ := mapOpt_mem fixShapeTop shapes shapes2 hmk s hs
              exact fixShapeTop_floors a s hfa
          | jstr s2 =>
            simp only [hsh] at hval
            split at hval
            · injection hval with hval
              subst hval
              simp [sceneShapes, hsh] at hs
            · cases hval
          | jobj l =>
            simp only [hsh] at hval
            split at hval
            · injection hval with hval
              subst hval
              simp [sceneShapes, hsh] at hs
            · cases hval
          | jnull => simp [hsh] at hval
          | jbool b => simp [hsh] at hval
          | jnum q => simp [hsh] at hval
      | jnull => cases hval
      | jbool b => cases hval
      | jnum q => cases hval
      | jstr s2 => cases hval
      | jarr l => cases hval
    · rw [if_neg hsc] at hval
      cases hval
  · intro opts opts2 w hfix how hlt
    unfold fixOptions at hfix
    simp only [how] at hfix
    rw [if_pos hlt] at hfix
    split at hfix
    · cases hfix
    · split at hfix
      · cases hfix
      · injection hfix with hfix
        subst hfix
        refine ⟨pyMax 75 (w * (3 / 2)), ?_, fifty_le_pyMax _⟩
        rw [objGet_objSet_ne _ "depth" _ "width" (by decide),
          objGet_objSet_ne _ "height" _ "width" (by decide),
          objGet_objSet_self]
  · intro opts w how hh hd
    unfold fixOptions
    simp only [how]
    by_cases hlt : w < 50
    · rw [if_pos hlt]
      cases hoh : objGet
          (objSet opts "width" (JVal.jnum (pyMax 75 (w * (3 / 2)))))
          "height" with
      | none =>
        simp only [hoh]
        cases hdo : objGet
            (objSet (objSet opts "width" (JVal.jnum (pyMax 75 (w * (3 / 2)))))
              "height" (JVal.jnum (pyMax 75 (pyMax 75 (w * (3 / 2))))))
            "depth" with
        | none => simp [hdo]
        | some x =>
          have hdo2 := hdo
          rw [objGet_objSet_ne _ "height" _ "depth" (by decide),
            objGet_objSet_ne _ "width" _ "depth" (by decide)] at hdo2
          obtain ⟨q, hq⟩ := hd x hdo2
          subst hq
          simp [hdo]
      | some x =>
        have hoh2 := hoh
        rw [objGet_objSet_ne _ "width" _ "height" (by decide)] at hoh2
        obtain ⟨q, hq⟩ := hh x hoh2
        subst hq
        simp only [hoh]
        cases hdo : objGet
            (objSet (objSet opts "width" (JVal.jnum (pyMax 75 (w * (3 / 2)))))
              "height" (JVal.jnum (pyMax 75 q)))
            "depth" with
        | none => simp [hdo]
        | some x2 =>
          have hdo2 := hdo
          rw [objGet_objSet_ne _ "height" _ "depth" (by decide),
            objGet_objSet_ne _ "width" _ "depth" (by decide)] at hdo2
          obtain ⟨q2, hq2⟩ := hd x2 hdo2
          subst hq2
          simp [hdo]
    · rw [if_neg hlt]
      rfl

/-- Counterexample for C7 as stated: this scene passes the schema and the
validation step returns it unchanged, yet it contains a Box two levels deep
whose width 5 is below the 50 threshold and is NOT scaled up. -/
theorem claim_C7_counterexample :
    schemaCheck c7deepScene = true ∧
    validateScene c7deepScene = some c7deepScene ∧
    ((validateScene c7deepScene).bind (fun out =>
      (((sceneShapes out).head?.bind (fun s => (nodeChildren s).head?)).bind
        (fun m => (nodeChildren m).head?)).map isBoxType)) = some true ∧
    ((validateScene c7deepScene).bind (fun out =>
      (((sceneShapes out).head?.bind (fun s => (nodeChildren s).head?)).bind
        (fun m => (nodeChildren m).head?)).bind nodeWidth)) = some 5 ∧
    (5 : Rat) < 50 := by
  refine ⟨rfl, rfl, rfl, rfl, by decide⟩

/-- Witness for C7: a scene with a single undersized top-level Box is not
rejected and the theorem applied to its validated output bounds the scaled
width from below by the threshold; the coercion applied to a bare width-10
options object raises the width to at least the threshold and succeeds. -/
theorem claim_C7_witness :
    ((50 : Rat) ≤ c7w2) ∧
    (∃ w2, objGet
        [("width", JVal.jnum c7w2),
         ("height", JVal.jnum (pyMax 75 c7w2)),
         ("depth", JVal.jnum (pyMax 75 c7w2))] "width" =
          some (JVal.jnum w2) ∧ 50 ≤ w2) ∧
    (fixOptions [("width", JVal.jnum 10)]).isSome = true :=
  ⟨(claim_C7.1 c7boxScene c7fixedScene rfl
      (JVal.jobj [("type", JVal.jstr "Box"),
        ("options", JVal.jobj
          [("width", JVal.jnum c7w2),
           ("height", JVal.jnum (pyMax 75 c7w2)),
           ("depth", JVal.jnum (pyMax 75 c7w2))])])
      (List.Mem.head _)).1 rfl c7w2 rfl,
   claim_C7.2.1 [("width", JVal.jnum 10)]
     [("width", JVal.jnum c7w2),
      ("height", JVal.jnum (pyMax 75 c7w2)),
      ("depth", JVal.jnum (pyMax 75 c7w2))] 10 rfl rfl (by decide),
   claim_C7.2.2 [("width", JVal.jnum 10)] 10 rfl
     (by intro x hx; simp [objGet] at hx)
     (by intro x hx; simp [objGet] at hx)⟩
